import Mathlib

set_option maxRecDepth 8192

/-!
Verification of the agent execution engine of the `mgxdemo` backend
(`src/backend/app`), as a shallow embedding in Lean 4.

Each definition mirrors one Python function of the repository; the
comments name the source file and function it embeds.  Machine integers
do not occur (all sizes and counters are unbounded in Python as well),
so `Nat` is used directly.  Fallible operations return `Except`.
-/

namespace Mgx

/-! ## Sandbox filename validation and file store
Source: `app/services/sandbox_service.py` (`SandboxService`). -/

/-- The newline character, written by code point to keep literals simple. -/
def newlineChar : Char := Char.ofNat 10

/-- Python re's default-Unicode `\w` restricted to its ASCII extent
`[A-Za-z0-9_]`: the instantiation of `pyWordCharW` below at ASCII
alphanumerics.  The full class (Unicode alphanumerics plus underscore)
is modelled by `pyWordCharW`; this ASCII instantiation is exact on
ASCII characters and is what the write-dispatch claims use, whose
filenames are ASCII. -/
def pyWordChar (c : Char) : Bool := c.isAlphanum || c == '_'

/-- One character of the class `[\w\-\.]` used by
`SandboxService._validate_filename`, in the ASCII instantiation
(`filenameCharW` below carries the full class). -/
def filenameChar (c : Char) : Bool := pyWordChar c || c == '-' || c == '.'

/-- `bool(re.match(r'^[\w\-\.]+$', s))`.  Python `re.match` anchors at the
start, and `$` matches at the end of the string or just before a single
trailing newline; hence the regex matches exactly when every character is
in the class, or when every character but one final newline is. -/
def regexFilenameMatch (s : String) : Bool :=
  (!s.data.isEmpty && s.data.all filenameChar)
    || (match s.data.getLast? with
        | some c =>
            c == newlineChar
              && (!s.data.dropLast.isEmpty && s.data.dropLast.all filenameChar)
        | none => false)

/-- `SandboxService._validate_filename`:
`bool(re.match(r'^[\w\-\.]+$', filename)) and filename not in ('.', '..')`,
in the ASCII instantiation: `validate_filenameW` below is the same
check over the abstract `\w`, and this definition equals
`validate_filenameW (fun ch => ch.isAlphanum)` (`validate_filenameW_ascii`). -/
def validate_filename (filename : String) : Bool :=
  regexFilenameMatch filename && !(filename == ".") && !(filename == "..")

/-- The error kinds raised by the sandbox service (all `ValueError` /
`FileNotFoundError` in the source, distinguished here by their message). -/
inductive SandboxError
  | invalidName (filename : String)
  | fileTooLarge
  | sandboxQuota
  | notFound (filename : String)
deriving DecidableEq

/-- The message text carried by each sandbox error.  `invalidName` and
`notFound` reproduce the source f-strings exactly; the two size errors
interpolate configured limits and computed sizes in the source and are
abridged here (no claim examines them). -/
def sandboxErrorStr : SandboxError → String
  | .invalidName f => "Invalid filename: " ++ f
  | .fileTooLarge => "File size exceeds limit"
  | .sandboxQuota => "Sandbox size would exceed limit"
  | .notFound f => "File not found: " ++ f

/-- The per-(user, session) sandbox directory: an association of
filenames to file contents. -/
abbrev SandboxFS := List (String × String)

/-- Total size of the sandbox in bytes (`SandboxService._get_sandbox_size`,
which sums `file_path.stat().st_size`, i.e. the UTF-8 byte sizes). -/
def fsTotalSize (fs : SandboxFS) : Nat :=
  fs.foldl (fun a p => a + p.2.utf8ByteSize) 0

/-- `SandboxService.read_file`. -/
def read_file (fs : SandboxFS) (filename : String) : Except SandboxError String :=
  if !validate_filename filename then .error (.invalidName filename)
  else
    match fs.lookup filename with
    | some content => .ok content
    | none => .error (.notFound filename)

/-- `SandboxService.write_file`.  `maxFileSize` and `maxSandboxSize` are
the byte limits (`max_file_size_mb * 1024 * 1024` and
`max_sandbox_size_mb * 1024 * 1024`); the size of the new content is
`len(content.encode('utf-8'))`; if the file already exists its current
size is subtracted before the quota check. -/
def write_file (fs : SandboxFS) (maxFileSize maxSandboxSize : Nat)
    (filename content : String) : Except SandboxError SandboxFS :=
  if !validate_filename filename then .error (.invalidName filename)
  else
    let contentSize := content.utf8ByteSize
    if maxFileSize < contentSize then .error .fileTooLarge
    else
      let currentSize :=
        match fs.lookup filename with
        | some old => fsTotalSize fs - old.utf8ByteSize
        | none => fsTotalSize fs
      if maxSandboxSize < currentSize + contentSize then .error .sandboxQuota
      else .ok ((fs.filter (fun p => p.1 != filename)) ++ [(filename, content)])

/-- `SandboxService.delete_file` (deleting an absent file is not an error). -/
def delete_file (fs : SandboxFS) (filename : String) : Except SandboxError SandboxFS :=
  if !validate_filename filename then .error (.invalidName filename)
  else .ok (fs.filter (fun p => p.1 != filename))

/-- One character of Python re's default-Unicode `\w`: the engine accepts
a character exactly when it is a Unicode alphanumeric (`str.isalnum`) or
an underscore.  The Unicode alphanumeric test is taken as a parameter
`alnum`; the theorems below hold for every `alnum`, in particular for
the exact Unicode class. -/
def pyWordCharW (alnum : Char → Bool) (c : Char) : Bool :=
  alnum c || c == '_'

/-- One character of the class `[\w\-\.]` of
`SandboxService._validate_filename`, over the abstract `\w`. -/
def filenameCharW (alnum : Char → Bool) (c : Char) : Bool :=
  pyWordCharW alnum c || c == '-' || c == '.'

/-- `bool(re.match(r'^[\w\-\.]+$', s))` over the abstract `\w`: `re.match`
anchors at the start, and `$` matches at the end of the string or just
before a single trailing newline. -/
def regexFilenameMatchW (alnum : Char → Bool) (s : String) : Bool :=
  (!s.data.isEmpty && s.data.all (filenameCharW alnum))
    || (match s.data.getLast? with
        | some c =>
            c == newlineChar
              && (!s.data.dropLast.isEmpty
                  && s.data.dropLast.all (filenameCharW alnum))
        | none => false)

/-- `SandboxService._validate_filename` over the abstract `\w`. -/
def validate_filenameW (alnum : Char → Bool) (filename : String) : Bool :=
  regexFilenameMatchW alnum filename
    && !(filename == ".") && !(filename == "..")

/-- `SandboxService.read_file` over the abstract `\w`. -/
def read_fileW (alnum : Char → Bool) (fs : SandboxFS) (filename : String) :
    Except SandboxError String :=
  if !validate_filenameW alnum filename then .error (.invalidName filename)
  else
    match fs.lookup filename with
    | some content => .ok content
    | none => .error (.notFound filename)

/-- `SandboxService.write_file` over the abstract `\w`. -/
def write_fileW (alnum : Char → Bool) (fs : SandboxFS)
    (maxFileSize maxSandboxSize : Nat) (filename content : String) :
    Except SandboxError SandboxFS :=
  if !validate_filenameW alnum filename then .error (.invalidName filename)
  else
    let contentSize := content.utf8ByteSize
    if maxFileSize < contentSize then .error .fileTooLarge
    else
      let currentSize :=
        match fs.lookup filename with
        | some old => fsTotalSize fs - old.utf8ByteSize
        | none => fsTotalSize fs
      if maxSandboxSize < currentSize + contentSize then .error .sandboxQuota
      else .ok ((fs.filter (fun p => p.1 != filename)) ++ [(filename, content)])

/-- `SandboxService.delete_file` over the abstract `\w`. -/
def delete_fileW (alnum : Char → Bool) (fs : SandboxFS) (filename : String) :
    Except SandboxError SandboxFS :=
  if !validate_filenameW alnum filename then .error (.invalidName filename)
  else .ok (fs.filter (fun p => p.1 != filename))

/-- Whether a sandbox operation failed with the filename-validation error. -/
def isInvalidNameError {α : Type} : Except SandboxError α → Bool
  | .error (.invalidName _) => true
  | _ => false

deriving instance DecidableEq for Except

/-- `WriteTool.execute` (`app/tools/write_tool.py`): calls
`sandbox_service.write_file` and catches every exception, returning the
error text as an ordinary result string; on success it reports the
character length of the content (Python `len(content)`). -/
def write_tool_execute (fs : SandboxFS) (maxFileSize maxSandboxSize : Nat)
    (filename content : String) : String :=
  match write_file fs maxFileSize maxSandboxSize filename content with
  | .ok _ => "成功写入文件 " ++ filename ++ "（大小：" ++ toString content.length ++ " 字节）"
  | .error e => "错误：" ++ sandboxErrorStr e

/-! ## Prompt assembly and history truncation
Source: `app/api/messages.py`
(`_apply_truncation_strategy`, `_prepare_ai_messages`). -/

/-- The four message roles of `MessageRole`. -/
inductive Role
  | system | user | assistant | tool
deriving DecidableEq

/-- One tool call in the provider echo shape
`{id, type: "function", function: {name, arguments}}`; the constant
`type` field is omitted and `arguments` is kept as its original JSON
string (`_convert_tool_calls_to_api_format` passes items that already
carry a `function` key through unchanged). -/
structure ToolCall where
  id : String
  name : String
  arguments : String
deriving DecidableEq

/-- A provider-bound message dict as built by `_prepare_ai_messages`:
`toolCalls`/`reasoningContent`/`toolCallId` model the optional keys
(`none` = key absent). -/
structure AiMsg where
  role : Role
  content : String
  toolCalls : Option (List ToolCall) := none
  reasoningContent : Option String := none
  toolCallId : Option String := none
deriving DecidableEq

/-- A stored `Message` row as read from the chat history store:
`toolCalls = none` models a NULL `tool_calls` column and
`toolCalls = some tcs` a stored JSON array (the agent loop only ever
stores a non-empty array or NULL). -/
structure StoredMsg where
  role : Role
  content : String
  toolCalls : Option (List ToolCall) := none
  reasoningContent : Option String := none
  toolCallId : Option String := none
deriving DecidableEq

/-- The newest `max_history` assistant messages:
`assistant_messages[-max_history:] if assistant_messages else []`.
Python `lst[-0:]` is the whole list, hence the `maxHistory = 0` case. -/
def recentAssistants (messages : List AiMsg) (maxHistory : Nat) : List AiMsg :=
  let a := messages.filter (fun m => m.role == Role.assistant)
  if maxHistory == 0 then a else a.drop (a.length - maxHistory)

/-- The set of tool-call ids of the kept assistants (a Python `set`;
modelled as a list, only membership is ever used). -/
def collectToolCallIds (ra : List AiMsg) : List String :=
  ra.flatMap (fun m =>
    match m.toolCalls with
    | some tcs => tcs.map (fun tc => tc.id)
    | none => [])

/-- `msg.get("tool_call_id") in tool_call_ids` for a tool message. -/
def keepTool (ids : List String) (m : AiMsg) : Bool :=
  match m.toolCallId with
  | some i => ids.contains i
  | none => false

/-- The message-by-message walk of `_apply_truncation_strategy`:
system messages are kept, the first user message is kept and later user
messages dropped, an assistant message is kept iff it occurs in
`recent_assistants` (Python `in`, i.e. equality), and a tool message is
kept iff its `tool_call_id` belongs to a kept assistant. -/
def truncGo (ra : List AiMsg) (ids : List String) :
    List AiMsg → Bool → List AiMsg
  | [], _ => []
  | m :: rest, firstUserKept =>
    match m.role with
    | Role.system => m :: truncGo ra ids rest firstUserKept
    | Role.user =>
        if firstUserKept then truncGo ra ids rest firstUserKept
        else m :: truncGo ra ids rest true
    | Role.assistant =>
        if ra.elem m then m :: truncGo ra ids rest firstUserKept
        else truncGo ra ids rest firstUserKept
    | Role.tool =>
        if keepTool ids m then m :: truncGo ra ids rest firstUserKept
        else truncGo ra ids rest firstUserKept

/-- `_apply_truncation_strategy(messages, max_history)`. -/
def apply_truncation_strategy (messages : List AiMsg) (maxHistory : Nat) : List AiMsg :=
  truncGo (recentAssistants messages maxHistory)
    (collectToolCallIds (recentAssistants messages maxHistory)) messages false

/-- The fixed leading system prompt `_SYSTEM_PROMPT` of
`app/api/messages.py`. -/
def systemPromptText : String :=
  "你是一个网页开发助手。你帮助用户创建和修改网页应用。

当用户要求你创建或修改网页应用时，你应该：
1. 理解用户的需求
2. 用简洁的语言说明你要做什么
3. 代码文件会自动被修改，你不需要输出任何特殊标记

例如用户说“帮我做一个 Todo List”，你应该回复：
“好的，我来帮你创建一个 Todo List 应用。它将包含：
- 输入框用于添加新任务
- 任务列表显示
- 完成和删除按钮
- 简洁的样式设计”

不要输出代码，系统会自动处理代码生成。"

/-- The synthetic first element of the provider message array. -/
def systemPromptMsg : AiMsg := { role := Role.system, content := systemPromptText }

/-- Per-message conversion inside `_prepare_ai_messages`:
a user message has its content replaced by the contextual prompt
(`_build_contextual_user_prompt`, abstracted as `ctx`); an assistant
message is appended only when its stored `tool_calls` is truthy, carrying
the converted tool calls and `reasoning_content or ""`; a tool message
carries `tool_call_id or ""`; a system message passes through; an
assistant message without tool calls is not appended at all. -/
def convertStored (ctx : String → String) (m : StoredMsg) : Option AiMsg :=
  match m.role with
  | Role.user => some { role := Role.user, content := ctx m.content }
  | Role.assistant =>
      match m.toolCalls with
      | some tcs =>
          some { role := Role.assistant, content := m.content,
                 toolCalls := some tcs,
                 reasoningContent := some (m.reasoningContent.getD "") }
      | none => none
  | Role.tool =>
      some { role := Role.tool, content := m.content,
             toolCallId := some (m.toolCallId.getD "") }
  | Role.system => some { role := Role.system, content := m.content }

/-- `_prepare_ai_messages(session_id, user_id, db, enable_truncation)`:
the leading system prompt, then the converted stored messages, truncated
when both the argument and `settings.enable_message_truncation` enable it
(the two flags are merged into `enableTrunc` here). -/
def prepare_ai_messages (ctx : String → String) (stored : List StoredMsg)
    (enableTrunc : Bool) (maxHistory : Nat) : List AiMsg :=
  let allMessages := stored.filterMap (convertStored ctx)
  systemPromptMsg ::
    (if enableTrunc then apply_truncation_strategy allMessages maxHistory
     else allMessages)

/-! ## Tool registry and the two todo tools
Source: `app/tools/agent_sandbox.py`, `app/tools/todo_tool.py`,
`app/tools/todo_write.py`. -/

/-- The six tools constructed by `AgentSandbox._init_tools`. -/
inductive RegistryTool
  | bash | list | read | write | todo | check
deriving DecidableEq

/-- The registry dict of `AgentSandbox._init_tools`:
`{"bash": BashTool, "list": ListTool, "read": ReadTool,
"write": WriteTool, "todo": TodoTool, "check": CheckTool}`. -/
def initTools : List (String × RegistryTool) :=
  [("bash", RegistryTool.bash), ("list", RegistryTool.list),
   ("read", RegistryTool.read), ("write", RegistryTool.write),
   ("todo", RegistryTool.todo), ("check", RegistryTool.check)]

/-- The registered tool names, in registration order. -/
def registryNames : List String := initTools.map Prod.fst

/-- Python keyword binding of `tool.execute(**arguments)` against a
signature with parameter list `accepted` of which `required` have no
default: the call binds iff every given keyword is accepted and every
required parameter is given; otherwise Python raises `TypeError`. -/
def pyKwargsBindable (accepted required given : List String) : Bool :=
  given.all (fun k => accepted.contains k) && required.all (fun k => given.contains k)

/-- Keyword parameters of `TodoTool.execute(self, action, task=None)`. -/
def todoToolAcceptedKwargs : List String := ["action", "task"]

/-- Required keyword parameters of `TodoTool.execute`. -/
def todoToolRequiredKwargs : List String := ["action"]

/-- Keyword parameters of `TodoWriteTool.execute(self, todos)`. -/
def todoWriteAcceptedKwargs : List String := ["todos"]

/-- A row of the legacy `Todo` model used by `TodoTool`. -/
structure TodoRow where
  task : String
  completed : Bool
deriving DecidableEq

/-- Contiguous-sublist test on character lists. -/
def listContainsSub (sub : List Char) : List Char → Bool
  | [] => sub.isEmpty
  | c :: rest => sub.isPrefixOf (c :: rest) || listContainsSub sub rest

/-- Substring test (`Todo.task.contains(task)` in the SQLAlchemy filter). -/
def strContainsSub (s sub : String) : Bool :=
  listContainsSub sub.data s.data

/-- Mark the first uncompleted row whose task contains the given text;
returns the matched task and the updated rows (`TodoTool._mark_done`). -/
def markFirstDone (sub : String) : List TodoRow → Option (String × List TodoRow)
  | [] => none
  | r :: rest =>
    if !r.completed && strContainsSub r.task sub then
      some (r.task, { r with completed := true } :: rest)
    else
      (markFirstDone sub rest).map (fun p => (p.1, r :: p.2))

/-- `TodoTool._list_tasks` formatting. -/
def todoListTasks (rows : List TodoRow) : String :=
  if rows.isEmpty then "当前没有任务。"
  else
    String.intercalate "\n"
      ("任务列表：" ::
        rows.enum.map (fun p =>
          toString (p.1 + 1) ++ ". " ++ (if p.2.completed then "✅" else "⬜")
            ++ " " ++ p.2.task))

/-- `TodoTool.execute` (`app/tools/todo_tool.py`): the action-based legacy
tool operating on per-task rows; returns the reply string and the updated
rows. -/
def todo_tool_execute (action : String) (task : Option String)
    (rows : List TodoRow) : String × List TodoRow :=
  if action == "add" then
    match task with
    | none => ("错误：添加任务时必须提供task参数", rows)
    | some t => ("已添加任务：" ++ t, rows ++ [{ task := t, completed := false }])
  else if action == "list" then
    (todoListTasks rows, rows)
  else if action == "mark_done" then
    match task with
    | none => ("错误：标记任务完成时必须提供task参数", rows)
    | some t =>
        match markFirstDone t rows with
        | some p => ("已标记任务完成：" ++ p.1, p.2)
        | none => ("错误：未找到未完成的任务 \x27" ++ t ++ "\x27", rows)
  else if action == "clear" then
    ("已清除 " ++ toString rows.length ++ " 个任务。", [])
  else
    ("错误：未知的操作类型 \x27" ++ action ++ "\x27", rows)

/-- One item of the `TodoWriteTool` snapshot. -/
structure TodoItem where
  content : String
  status : String
  activeForm : String
deriving DecidableEq

/-- The structured response of `TodoWriteTool.execute` (the source returns
it serialized with `json.dumps(..., ensure_ascii=False, indent=2)`). -/
structure TodoWriteSummary where
  todos : List TodoItem
  total : Nat
  completed : Nat
  in_progress : Nat
  pending : Nat
deriving DecidableEq

/-- The name property of `TodoWriteTool`. -/
def todoWriteToolName : String := "todo_write"

/-- `TodoWriteTool.execute` (`app/tools/todo_write.py`): upserts the
session's single `TodoSnapshot` row to the given list (replacing any
previous snapshot) and returns the summary counted with
`sum(1 for t in todos if t.get("status") == ...)`. -/
def todo_write_execute (todos : List TodoItem) (_snapshot : Option (List TodoItem)) :
    TodoWriteSummary × Option (List TodoItem) :=
  ({ todos := todos,
     total := todos.length,
     completed := todos.countP (fun t => t.status == "completed"),
     in_progress := todos.countP (fun t => t.status == "in_progress"),
     pending := todos.countP (fun t => t.status == "pending") },
   some todos)

/-! ## Server-sent events
Source: `app/utils/sse.py` (`SSEEvent.format`, `stream_sse`) and
`app/api/messages.py` (`stream_execution_steps.event_generator`). -/

/-- One event dict yielded by an SSE generator:
`{"event": name, "data": payload, "id": optional}`; the payload is
modelled in its JSON-serialized form. -/
structure SSERawEvent where
  event : String
  data : String
  id : Option String := none
deriving DecidableEq

/-- Split a character list at newlines (`data_str.split("\n")`). -/
def splitNewlines : List Char → List (List Char)
  | [] => [[]]
  | c :: rest =>
    let r := splitNewlines rest
    if c == newlineChar then [] :: r
    else
      match r with
      | h :: t => (c :: h) :: t
      | [] => [[c]]

/-- `data_str.split("\n")` (an executable equivalent of `String.splitOn`
restricted to the newline separator). -/
def strSplitNewlines (s : String) : List String :=
  (splitNewlines s.data).map String.mk

/-- `SSEEvent.format(data, event, id)`: optional `id:` and `event:` lines,
one `data:` line per newline-separated chunk of the payload, a blank line,
all joined with newlines (a falsy `id`/`event` is modelled as `none`). -/
def sseFormat (data : String) (event : Option String) (id : Option String) : String :=
  let lines :=
    (match id with | some i => ["id: " ++ i] | none => [])
      ++ (match event with | some e => ["event: " ++ e] | none => [])
      ++ (strSplitNewlines data).map (fun l => "data: " ++ l)
      ++ [""]
  String.intercalate "\n" lines ++ "\n"

/-- `json.dumps({"done": True}, ensure_ascii=False)`. -/
def doneEventData : String := "\x7b\"done\": true\x7d"

/-- `stream_sse.event_stream`: formats every event of the (non-raising)
generator, then appends the final `done` emission. -/
def eventStreamWire (gen : List SSERawEvent) : List String :=
  gen.map (fun e => sseFormat e.data (some e.event) e.id)
    ++ [sseFormat doneEventData (some "done") none]

/-- The terminal check of `stream_execution_steps.event_generator`:
`event.get("event") in ["completed", "failed", "done"]`. -/
def isTerminalEvent (e : SSERawEvent) : Bool :=
  e.event == "completed" || e.event == "failed" || e.event == "done"

/-- The queue-forwarding loop of `event_generator`: each dequeued event is
yielded, and the loop breaks right after yielding a terminal one.
Heartbeat pings (emitted on `queue.get` timeouts) are omitted; they never
terminate the generator. -/
def forwardEvents : List SSERawEvent → List SSERawEvent
  | [] => []
  | e :: rest => if isTerminalEvent e then [e] else e :: forwardEvents rest

/-- `event_generator`: the optional initial `sync` emission (present when
the latest step of the latest assistant message is non-terminal), then the
forwarded queue events. -/
def eventGenerator (sync : Option SSERawEvent) (queue : List SSERawEvent) :
    List SSERawEvent :=
  sync.toList ++ forwardEvents queue

/-! ## The agent loop
Source: `app/api/messages.py` (`_run_agent_loop`, `_save_execution_step`,
`_emit_event_nonblocking`, `create_message.run_agent`) and
`app/services/deepseek_service.py` (`chat_with_tools_streaming`).

One user turn is driven by a script: per iteration, the provider stream
yields a list of `reasoning_delta` chunks and then finalizes with either a
set of tool calls, a text-only `done`, or an uncaught exception (database
failure, exhausted provider retries, ...).  What a registered tool's
`execute` returns (or raises) is part of the script; dispatch of an
unregistered name deterministically raises, mirroring
`AgentSandbox.execute_tool`. -/

/-- `ExecutionStatus` of `app/models/agent_execution.py`. -/
inductive ExecutionStatus
  | thinking | tool_calling | tool_executing | tool_completed
  | finalizing | completed | failed
deriving DecidableEq

/-- The status-to-event-name mapping of `_save_execution_step`. -/
def statusEventName : ExecutionStatus → String
  | ExecutionStatus.thinking => "thinking"
  | ExecutionStatus.tool_calling => "tool_calling"
  | ExecutionStatus.tool_executing => "tool_executing"
  | ExecutionStatus.tool_completed => "tool_completed"
  | ExecutionStatus.completed => "completed"
  | ExecutionStatus.failed => "failed"
  | ExecutionStatus.finalizing => "step"

/-- An `AgentExecutionStep` row as written by `_save_execution_step`.
`progress` values of the schedule are whole numbers, so the `Float`
column is modelled by `Nat`.  The source stores `tool_arguments` as
`json.dumps` of the original arguments string; the encoding is dropped
here and the original string kept (no claim examines the encoding). -/
structure RawStep where
  iteration : Nat
  status : ExecutionStatus
  reasoning_content : Option String := none
  tool_name : Option String := none
  tool_arguments : Option String := none
  tool_call_id : Option String := none
  tool_result : Option String := none
  tool_error : Option String := none
  progress : Option Nat := none
deriving DecidableEq

/-- An event as enqueued on the session's `asyncio.Queue`:
its wire name, the index (creation order) of the step row it carries, and
the snapshot of that row's reasoning text at emission time. -/
structure EmittedEvent where
  name : String
  stepIdx : Option Nat := none
  reasoning_snapshot : Option String := none
deriving DecidableEq

/-- The primitive persistence and queue actions of the loop, in program
order: committing a new step row, committing an in-place reasoning
update, enqueueing the step's event, enqueueing a `thinking_delta` event,
and enqueueing a non-step event (`todos_update` / `done` / `error`). -/
inductive DbAction
  | persistCreate (idx : Nat)
  | persistUpdate (idx : Nat)
  | emitStep (idx : Nat)
  | emitDelta (idx : Nat)
  | emitOther (name : String)
deriving DecidableEq

/-- The evolving turn state: the step rows in creation order, the events
in enqueue order, and the interleaved action trace. -/
structure LoopState where
  steps : List RawStep := []
  events : List EmittedEvent := []
  trace : List DbAction := []
deriving DecidableEq

/-- `_save_execution_step`: add the row, commit, then build the event and
enqueue it non-blockingly (`_emit_event_nonblocking`; on a full queue the
oldest event is evicted first, which changes delivery, not enqueue
order). -/
def save_execution_step (st : LoopState) (s : RawStep) : LoopState :=
  let k := st.steps.length
  { steps := st.steps ++ [s],
    events := st.events ++
      [{ name := statusEventName s.status, stepIdx := some k,
         reasoning_snapshot := s.reasoning_content }],
    trace := st.trace ++ [DbAction.persistCreate k, DbAction.emitStep k] }

/-- In-place update of the current thinking row's reasoning text
(`step.reasoning_content = accumulated_reasoning; db.commit()`). -/
def updReasoning (steps : List RawStep) (k : Nat) (r : String) : List RawStep :=
  match steps[k]? with
  | some old => steps.set k { old with reasoning_content := some r }
  | none => steps

/-- The `reasoning_delta` branch of the stream loop, once per chunk: the
service event carries the chunk and its accumulated text (the service
concatenates chunks in order); the row `k` is updated and committed, then
a `thinking_delta` event carrying the row snapshot is enqueued. -/
def processDeltas (k : Nat) (acc : String) (ds : List String) (st : LoopState) :
    LoopState × String :=
  match ds with
  | [] => (st, acc)
  | d :: rest =>
    let acc2 := acc ++ d
    let st2 : LoopState :=
      { steps := updReasoning st.steps k acc2,
        events := st.events ++
          [{ name := "thinking_delta", stepIdx := some k,
             reasoning_snapshot := some acc2 }],
        trace := st.trace ++ [DbAction.persistUpdate k, DbAction.emitDelta k] }
    processDeltas k acc2 rest st2

/-- One tool call as finalized by the provider stream:
`{id, type, function: {name, arguments}}`. -/
structure ToolCallReq where
  id : String
  name : String
  arguments : String
deriving DecidableEq

/-- What a registered tool's `execute` does for one call: return a result
string, or raise.  `resultHasTodos` abstracts whether
`json.loads(result)` succeeds and the object contains a `"todos"` key
(the guard of the `todos_update` emission). -/
inductive ToolOutcome
  | ok (result : String) (resultHasTodos : Bool)
  | exn (message : String)
deriving DecidableEq

/-- `AgentSandbox.execute_tool`: unknown names raise
`ValueError(f"未知的工具：{tool_name}。可用工具：{available}")`; registered
tools behave as scripted. -/
def executeToolModel (name : String) (oracle : ToolOutcome) : ToolOutcome :=
  if registryNames.contains name then oracle
  else ToolOutcome.exn
    ("未知的工具：" ++ name ++ "。可用工具：" ++ String.intercalate ", " registryNames)

/-- The per-call body of the tool loop in `_run_agent_loop`: a
`tool_calling` row, a `tool_executing` row, then on success a
`tool_completed` row carrying `result[:1000] if result else None` (plus
the `todos_update` event when the tool was named `todo_write` and the
result JSON contains `todos`), and on exception a `failed` row carrying
`f"工具 {tool_name} 执行失败: {e}"`.  The committed `tool` chat message is
not part of the step store and is not modelled. -/
def processCall (i : Nat) (st : LoopState) (c : ToolCallReq × ToolOutcome) : LoopState :=
  let st1 := save_execution_step st
    { iteration := i, status := ExecutionStatus.tool_calling,
      tool_name := some c.1.name, tool_arguments := some c.1.arguments,
      tool_call_id := some c.1.id, progress := some (min (20 + i * 8) 90) }
  let st2 := save_execution_step st1
    { iteration := i, status := ExecutionStatus.tool_executing,
      tool_name := some c.1.name, tool_arguments := some c.1.arguments,
      tool_call_id := some c.1.id, progress := some (min (25 + i * 8) 92) }
  match executeToolModel c.1.name c.2 with
  | ToolOutcome.ok result ht =>
    let st3 := save_execution_step st2
      { iteration := i, status := ExecutionStatus.tool_completed,
        tool_name := some c.1.name, tool_arguments := some c.1.arguments,
        tool_call_id := some c.1.id,
        tool_result := (if result.length == 0 then none else some (result.take 1000)),
        progress := some (min (30 + i * 8) 95) }
    if c.1.name == "todo_write" && ht then
      { st3 with
        events := st3.events ++ [{ name := "todos_update" }],
        trace := st3.trace ++ [DbAction.emitOther "todos_update"] }
    else st3
  | ToolOutcome.exn m =>
    save_execution_step st2
      { iteration := i, status := ExecutionStatus.failed,
        tool_name := some c.1.name, tool_arguments := some c.1.arguments,
        tool_call_id := some c.1.id,
        tool_error := some ("工具 " ++ c.1.name ++ " 执行失败: " ++ m),
        progress := some (min (30 + i * 8) 95) }

/-- `for tool_call in tool_calls: ...` -/
def processCalls (i : Nat) (calls : List (ToolCallReq × ToolOutcome)) (st : LoopState) :
    LoopState :=
  match calls with
  | [] => st
  | c :: rest => processCalls i rest (processCall i st c)

/-- How one provider-stream consumption finalizes. -/
inductive Finish
  | withTools (calls : List (ToolCallReq × ToolOutcome)) (content : String)
  | textDone (content : String)
  | raiseErr (message : String)
deriving DecidableEq

/-- Whether the finalization is an uncaught exception. -/
def Finish.isRaise : Finish → Bool
  | Finish.raiseErr _ => true
  | _ => false

/-- The scripted behaviour of one loop iteration. -/
structure IterScript where
  deltas : List String
  finish : Finish
deriving DecidableEq

/-- How an iteration leaves the outer `for` loop. -/
inductive IterOutcome
  | cont | brk | raised (message : String)

/-- One iteration of `_run_agent_loop`: the empty `thinking` row
(progress `min(10 + i*5, 80)`), the streamed reasoning deltas updating
that row in place, then — unless the stream raised — the `tool_calling`
row on a tool-calls finalization (progress `min(20 + i*8, 90)`), the
unconditional post-stream `thinking` row (progress `min(15 + i*5, 85)`),
and the per-call tool processing.  `if not tool_calls: break`. -/
def runIteration (i : Nat) (sc : IterScript) (st : LoopState) :
    LoopState × IterOutcome :=
  let k := st.steps.length
  let st1 := save_execution_step st
    { iteration := i, status := ExecutionStatus.thinking,
      progress := some (min (10 + i * 5) 80) }
  let st2acc := processDeltas k "" sc.deltas st1
  match sc.finish with
  | Finish.raiseErr m => (st2acc.1, IterOutcome.raised m)
  | Finish.textDone _ =>
    let st3 := save_execution_step st2acc.1
      { iteration := i, status := ExecutionStatus.thinking,
        reasoning_content := some st2acc.2,
        progress := some (min (15 + i * 5) 85) }
    (st3, IterOutcome.brk)
  | Finish.withTools calls _ =>
    let st3 := save_execution_step st2acc.1
      { iteration := i, status := ExecutionStatus.tool_calling,
        reasoning_content := some st2acc.2,
        progress := some (min (20 + i * 8) 90) }
    let st4 := save_execution_step st3
      { iteration := i, status := ExecutionStatus.thinking,
        reasoning_content := some st2acc.2,
        progress := some (min (15 + i * 5) 85) }
    let st5 := processCalls i calls st4
    (st5, if calls.isEmpty then IterOutcome.brk else IterOutcome.cont)

/-- `_MAX_AGENT_ITERATIONS` (`app/api/messages.py`, line 29). -/
def maxAgentIterations : Nat := 500

/-- The terminal `completed` row written after the loop
(progress `100.0`, at the `iteration` value the `for` variable holds). -/
def saveCompleted (st : LoopState) (i : Nat) : LoopState :=
  save_execution_step st
    { iteration := i, status := ExecutionStatus.completed, progress := some 100 }

/-- `for iteration in range(1, _MAX_AGENT_ITERATIONS + 1)` with `fuel`
remaining passes and `i` the next iteration number.  A script shorter
than the run stands for a provider that finalizes with an empty `done`.
When the `for` range is exhausted the loop variable still holds the last
executed iteration, `i - 1`.  An uncaught exception aborts the loop
without a terminal row. -/
def loopGo : Nat → Nat → List IterScript → LoopState → LoopState × Option String
  | 0, i, _, st => (saveCompleted st (i - 1), none)
  | fuel + 1, i, scripts, st =>
    let sc := scripts.headD { deltas := [], finish := Finish.textDone "" }
    match runIteration i sc st with
    | (st2, IterOutcome.raised m) => (st2, some m)
    | (st2, IterOutcome.brk) => (saveCompleted st2 i, none)
    | (st2, IterOutcome.cont) => loopGo fuel (i + 1) scripts.tail st2

/-- The observable outcome of one whole turn. -/
structure TurnResult where
  steps : List RawStep
  events : List EmittedEvent
  trace : List DbAction
  raisedMsg : Option String
deriving DecidableEq

/-- `_run_agent_loop` plus the `run_agent` wrapper of `create_message`:
on normal return the assistant message is finalized and a `done` event
enqueued; on an uncaught exception the wrapper enqueues an `error` event
and finalizes the message with an error body, appending no step row. -/
def run_agent_turn (scripts : List IterScript) : TurnResult :=
  let r := loopGo maxAgentIterations 1 scripts {}
  match r.2 with
  | none =>
    { steps := r.1.steps,
      events := r.1.events ++ [{ name := "done" }],
      trace := r.1.trace ++ [DbAction.emitOther "done"],
      raisedMsg := none }
  | some m =>
    { steps := r.1.steps,
      events := r.1.events ++ [{ name := "error" }],
      trace := r.1.trace ++ [DbAction.emitOther "error"],
      raisedMsg := some m }

/-- Whether a script contains no uncaught-exception finalization. -/
def scriptRaiseFree (scripts : List IterScript) : Bool :=
  scripts.all (fun sc => !sc.finish.isRaise)

/-- A step row together with its database identity: the autoincrement
primary key and the insertion timestamp.  Within one turn the rows are
inserted by one task in sequence, each in its own committed transaction,
so both grow with creation order; they are modelled by the creation
index. -/
structure NumberedStep where
  id : Nat
  created_at : Nat
  step : RawStep
deriving DecidableEq

/-- Assign ids and timestamps in creation order. -/
def numberSteps (l : List RawStep) : List NumberedStep :=
  l.enum.map (fun p => { id := p.1, created_at := p.1, step := p.2 })

/-- The step rows of a turn as the step store returns them. -/
def turnSteps (scripts : List IterScript) : List NumberedStep :=
  numberSteps (run_agent_turn scripts).steps

/-- Concatenation of the reasoning chunks, in order. -/
def strJoin : List String → String
  | [] => ""
  | s :: rest => s ++ strJoin rest

/-- The accumulated text carried by successive `thinking_delta` events
when the chunks arrive on top of already-accumulated text `acc`. -/
def deltaSnapshots (acc : String) : List String → List String
  | [] => []
  | d :: rest => (acc ++ d) :: deltaSnapshots (acc ++ d) rest

/-- The scripted outcome of dispatching the `write` tool: its `execute`
catches every exception and returns the message as the result, so the
dispatch never raises; the result JSON never parses to an object with a
`todos` key. -/
def writeToolOutcome (fs : SandboxFS) (maxFileSize maxSandboxSize : Nat)
    (filename content : String) : ToolOutcome :=
  ToolOutcome.ok (write_tool_execute fs maxFileSize maxSandboxSize filename content) false

/-- The persist-then-emit block discipline of the action trace: every
step event is immediately preceded by the commit of the row it carries,
every `thinking_delta` event by the commit of the in-place update it
reports, and non-step emissions stand alone. -/
inductive TraceBlocked : List DbAction → Prop
  | nil : TraceBlocked []
  | step (k : Nat) (rest : List DbAction) : TraceBlocked rest →
      TraceBlocked (DbAction.persistCreate k :: DbAction.emitStep k :: rest)
  | upd (k : Nat) (rest : List DbAction) : TraceBlocked rest →
      TraceBlocked (DbAction.persistUpdate k :: DbAction.emitDelta k :: rest)
  | other (n : String) (rest : List DbAction) : TraceBlocked rest →
      TraceBlocked (DbAction.emitOther n :: rest)

/-- The step rows of the trace in commit order. -/
def persistSeq (t : List DbAction) : List Nat :=
  t.filterMap fun a =>
    match a with
    | DbAction.persistCreate k => some k
    | _ => none

/-- The step rows of the trace in the order their events are enqueued. -/
def emitStepSeq (t : List DbAction) : List Nat :=
  t.filterMap fun a =>
    match a with
    | DbAction.emitStep k => some k
    | _ => none

/-! ## General helper lemmas -/

theorem strData_append (a b : String) : (a ++ b).data = a.data ++ b.data := by
  cases a; cases b; rfl

theorem strLength_append (a b : String) : (a ++ b).length = a.length + b.length :=
  String.length_append a b

theorem getLast?_append_right_ne_nil {α : Type} (l₁ l₂ : List α) (h : l₂ ≠ []) :
    (l₁ ++ l₂).getLast? = l₂.getLast? :=
  List.getLast?_append_of_ne_nil l₁ h

theorem not_isEmpty_iff {α : Type} (l : List α) : ((!l.isEmpty) = true) ↔ l ≠ [] := by
  cases l <;> simp

/-! ## Lemmas about the SSE stream wrapper -/

theorem forwardEvents_last_terminal (queue : List SSERawEvent)
    (h : queue.any isTerminalEvent = true) :
    ∃ e, (forwardEvents queue).getLast? = some e ∧ isTerminalEvent e = true := by
  induction queue with
  | nil => simp at h
  | cons e rest ih =>
    by_cases he : isTerminalEvent e = true
    · exact ⟨e, by simp [forwardEvents, he], he⟩
    · have hrest : rest.any isTerminalEvent = true := by
        simp only [List.any_cons, Bool.or_eq_true] at h
        rcases h with h | h
        · exact absurd h he
        · exact h
      obtain ⟨t, hlast, hterm⟩ := ih hrest
      refine ⟨t, ?_, hterm⟩
      have hne : forwardEvents rest ≠ [] := by
        intro hnil; rw [hnil] at hlast; simp at hlast
      have hstep : forwardEvents (e :: rest) = [e] ++ forwardEvents rest := by
        simp [forwardEvents, he]
      rw [hstep, getLast?_append_right_ne_nil _ _ hne, hlast]

/-- C10: for every SSE connection whose event generator terminates without
raising — in this model, because the queue delivered a terminal
`completed`/`failed`/`done` event — the wire stream produced by the
`stream_sse` wrapper ends with one further `done` emission
`{"done": true}` appended after the generator is exhausted, even though
the generator itself already ended with a terminal event. -/
theorem c10_done_final_emission (sync : Option SSERawEvent)
    (queue : List SSERawEvent) (hterm : queue.any isTerminalEvent = true) :
    (eventStreamWire (eventGenerator sync queue)).getLast?
        = some "event: done\ndata: \x7b\"done\": true\x7d\n\n"
      ∧ (∃ e, (eventGenerator sync queue).getLast? = some e
          ∧ isTerminalEvent e = true) := by
  constructor
  · rw [eventStreamWire, List.getLast?_concat]
    exact congrArg some (by decide)
  · obtain ⟨e, hlast, he⟩ := forwardEvents_last_terminal queue hterm
    refine ⟨e, ?_, he⟩
    have hne : forwardEvents queue ≠ [] := by
      intro hnil; rw [hnil] at hlast; simp at hlast
    rw [eventGenerator, getLast?_append_right_ne_nil _ _ hne, hlast]

/-- C10 witness: a queue holding exactly one `done` event. -/
theorem c10_done_final_emission_witness :
    ([({ event := "done", data := "\x7b\"done\": true\x7d" } : SSERawEvent)].any
        isTerminalEvent = true)
      ∧ ((eventStreamWire (eventGenerator none
            [{ event := "done", data := "\x7b\"done\": true\x7d" }])).getLast?
          = some "event: done\ndata: \x7b\"done\": true\x7d\n\n"
        ∧ (∃ e, (eventGenerator none
              [{ event := "done", data := "\x7b\"done\": true\x7d" }]).getLast? = some e
            ∧ isTerminalEvent e = true)) :=
  ⟨by decide, c10_done_final_emission none _ (by decide)⟩

/-! ## Lemmas about filename validation -/

theorem regexFilenameMatch_iff (f : String) :
    regexFilenameMatch f = true ↔
      ((f.data ≠ [] ∧ ∀ c ∈ f.data, filenameChar c = true)
        ∨ (∃ t, f.data = t ++ [newlineChar] ∧ t ≠ []
            ∧ ∀ c ∈ t, filenameChar c = true)) := by
  rw [regexFilenameMatch]
  cases hc : f.data.getLast? with
  | none =>
    have hnil : f.data = [] := List.getLast?_eq_none_iff.mp hc
    constructor
    · intro h
      rw [hnil] at h
      simp at h
    · rintro (⟨h, _⟩ | ⟨t, ht, _, _⟩)
      · exact absurd hnil h
      · rw [hnil] at ht
        exact absurd ht.symm (by simp)
  | some chl =>
    obtain ⟨t0, ht0⟩ := List.getLast?_eq_some_iff.mp hc
    constructor
    · intro h
      rcases Bool.or_eq_true _ _ |>.mp h with h1 | h2
      · rw [Bool.and_eq_true] at h1
        exact Or.inl ⟨(not_isEmpty_iff _).mp h1.1, List.all_eq_true.mp h1.2⟩
      · rw [Bool.and_eq_true, Bool.and_eq_true] at h2
        have hcnl : chl = newlineChar := eq_of_beq h2.1
        refine Or.inr ⟨f.data.dropLast, ?_,
          (not_isEmpty_iff _).mp h2.2.1, List.all_eq_true.mp h2.2.2⟩
        rw [ht0, List.dropLast_concat, hcnl]
    · rintro (⟨h1, h2⟩ | ⟨t, ht, h1, h2⟩)
      · refine Bool.or_eq_true _ _ |>.mpr (Or.inl ?_)
        rw [Bool.and_eq_true]
        exact ⟨(not_isEmpty_iff _).mpr h1, List.all_eq_true.mpr h2⟩
      · have hcnl : chl = newlineChar := by
          have hlast : f.data.getLast? = some newlineChar := by
            rw [ht, List.getLast?_concat]
          rw [hc] at hlast
          exact Option.some.inj hlast
        have hdrop : f.data.dropLast = t := by
          rw [ht, List.dropLast_concat]
        refine Bool.or_eq_true _ _ |>.mpr (Or.inr ?_)
        rw [Bool.and_eq_true, Bool.and_eq_true, hcnl, hdrop]
        exact ⟨beq_self_eq_true newlineChar,
          (not_isEmpty_iff _).mpr h1, List.all_eq_true.mpr h2⟩

theorem validate_filename_iff (f : String) :
    validate_filename f = true ↔
      (f ≠ "." ∧ f ≠ ".."
        ∧ ((f.data ≠ [] ∧ ∀ c ∈ f.data, filenameChar c = true)
            ∨ (∃ t, f.data = t ++ [newlineChar] ∧ t ≠ []
                ∧ ∀ c ∈ t, filenameChar c = true))) := by
  rw [validate_filename]
  simp only [Bool.and_eq_true, Bool.not_eq_true', beq_eq_false_iff_ne]
  rw [regexFilenameMatch_iff]
  constructor
  · rintro ⟨⟨hm, h1⟩, h2⟩
    exact ⟨h1, h2, hm⟩
  · rintro ⟨h1, h2, hm⟩
    exact ⟨⟨hm, h1⟩, h2⟩

theorem isInvalidNameError_read (fs : SandboxFS) (f : String) :
    isInvalidNameError (read_file fs f) = !validate_filename f := by
  cases hv : validate_filename f
  · simp [read_file, hv, isInvalidNameError]
  · simp only [read_file, hv, Bool.not_true, Bool.false_eq_true, if_false]
    cases fs.lookup f <;> rfl

theorem isInvalidNameError_write (fs : SandboxFS) (maxFileSize maxSandboxSize : Nat)
    (f c : String) :
    isInvalidNameError (write_file fs maxFileSize maxSandboxSize f c)
      = !validate_filename f := by
  cases hv : validate_filename f
  · simp [write_file, hv, isInvalidNameError]
  · simp only [write_file, hv, Bool.not_true, Bool.false_eq_true, if_false]
    split
    · rfl
    · split <;> rfl

theorem isInvalidNameError_delete (fs : SandboxFS) (f : String) :
    isInvalidNameError (delete_file fs f) = !validate_filename f := by
  cases hv : validate_filename f
  · simp [delete_file, hv, isInvalidNameError]
  · simp only [delete_file, hv, Bool.not_true, Bool.false_eq_true, if_false]
    rfl

theorem regexFilenameMatchW_iff (alnum : Char → Bool) (f : String) :
    regexFilenameMatchW alnum f = true ↔
      ((f.data ≠ [] ∧ ∀ c ∈ f.data, filenameCharW alnum c = true)
        ∨ (∃ t, f.data = t ++ [newlineChar] ∧ t ≠ []
            ∧ ∀ c ∈ t, filenameCharW alnum c = true)) := by
  rw [regexFilenameMatchW]
  cases hc : f.data.getLast? with
  | none =>
    have hnil : f.data = [] := List.getLast?_eq_none_iff.mp hc
    constructor
    · intro h
      rw [hnil] at h
      simp at h
    · rintro (⟨h, _⟩ | ⟨t, ht, _, _⟩)
      · exact absurd hnil h
      · rw [hnil] at ht
        exact absurd ht.symm (by simp)
  | some chl =>
    obtain ⟨t0, ht0⟩ := List.getLast?_eq_some_iff.mp hc
    constructor
    · intro h
      rcases Bool.or_eq_true _ _ |>.mp h with h1 | h2
      · rw [Bool.and_eq_true] at h1
        exact Or.inl ⟨(not_isEmpty_iff _).mp h1.1, List.all_eq_true.mp h1.2⟩
      · rw [Bool.and_eq_true, Bool.and_eq_true] at h2
        have hcnl : chl = newlineChar := eq_of_beq h2.1
        refine Or.inr ⟨f.data.dropLast, ?_,
          (not_isEmpty_iff _).mp h2.2.1, List.all_eq_true.mp h2.2.2⟩
        rw [ht0, List.dropLast_concat, hcnl]
    · rintro (⟨h1, h2⟩ | ⟨t, ht, h1, h2⟩)
      · refine Bool.or_eq_true _ _ |>.mpr (Or.inl ?_)
        rw [Bool.and_eq_true]
        exact ⟨(not_isEmpty_iff _).mpr h1, List.all_eq_true.mpr h2⟩
      · have hcnl : chl = newlineChar := by
          have hlast : f.data.getLast? = some newlineChar := by
            rw [ht, List.getLast?_concat]
          rw [hc] at hlast
          exact Option.some.inj hlast
        have hdrop : f.data.dropLast = t := by
          rw [ht, List.dropLast_concat]
        refine Bool.or_eq_true _ _ |>.mpr (Or.inr ?_)
        rw [Bool.and_eq_true, Bool.and_eq_true, hcnl, hdrop]
        exact ⟨beq_self_eq_true newlineChar,
          (not_isEmpty_iff _).mpr h1, List.all_eq_true.mpr h2⟩

theorem validate_filenameW_iff (alnum : Char → Bool) (f : String) :
    validate_filenameW alnum f = true ↔
      (f ≠ "." ∧ f ≠ ".."
        ∧ ((f.data ≠ [] ∧ ∀ c ∈ f.data, filenameCharW alnum c = true)
            ∨ (∃ t, f.data = t ++ [newlineChar] ∧ t ≠ []
                ∧ ∀ c ∈ t, filenameCharW alnum c = true))) := by
  rw [validate_filenameW]
  simp only [Bool.and_eq_true, Bool.not_eq_true', beq_eq_false_iff_ne]
  rw [regexFilenameMatchW_iff]
  constructor
  · rintro ⟨⟨hm, h1⟩, h2⟩
    exact ⟨h1, h2, hm⟩
  · rintro ⟨h1, h2, hm⟩
    exact ⟨⟨hm, h1⟩, h2⟩

theorem isInvalidNameError_readW (alnum : Char → Bool) (fs : SandboxFS)
    (f : String) :
    isInvalidNameError (read_fileW alnum fs f) = !validate_filenameW alnum f := by
  cases hv : validate_filenameW alnum f
  · simp [read_fileW, hv, isInvalidNameError]
  · simp only [read_fileW, hv, Bool.not_true, Bool.false_eq_true, if_false]
    cases fs.lookup f <;> rfl

theorem isInvalidNameError_writeW (alnum : Char → Bool) (fs : SandboxFS)
    (maxFileSize maxSandboxSize : Nat) (f c : String) :
    isInvalidNameError (write_fileW alnum fs maxFileSize maxSandboxSize f c)
      = !validate_filenameW alnum f := by
  cases hv : validate_filenameW alnum f
  · simp [write_fileW, hv, isInvalidNameError]
  · simp only [write_fileW, hv, Bool.not_true, Bool.false_eq_true, if_false]
    split
    · rfl
    · split <;> rfl

theorem isInvalidNameError_deleteW (alnum : Char → Bool) (fs : SandboxFS)
    (f : String) :
    isInvalidNameError (delete_fileW alnum fs f) = !validate_filenameW alnum f := by
  cases hv : validate_filenameW alnum f
  · simp [delete_fileW, hv, isInvalidNameError]
  · simp only [delete_fileW, hv, Bool.not_true, Bool.false_eq_true, if_false]
    rfl

theorem validate_filenameW_ascii (f : String) :
    validate_filenameW (fun ch => ch.isAlphanum) f = validate_filename f := rfl

/-- C8 (amended): for every reading `alnum` of Unicode `str.isalnum`
(Python re's default-Unicode `\w` is `alnum` plus the underscore, so the
theorem holds in particular at the exact Unicode class), filename
validation accepts exactly the strings that, after stripping at most one
trailing newline, consist of one or more characters of the class
`[\w\-\.]` and differ from `.` and `..`; the trailing-newline allowance
comes from Python's `$` anchor, which matches just before one final
newline.  Every sandbox operation (read, write, delete) raises its
filename `ValidationError` exactly when this validation rejects the
name. -/
theorem c8_validation_characterization (alnum : Char → Bool) (fs : SandboxFS)
    (f c : String) (maxFileSize maxSandboxSize : Nat) :
    (validate_filenameW alnum f = true ↔
      (f ≠ "." ∧ f ≠ ".."
        ∧ ((f.data ≠ [] ∧ ∀ ch ∈ f.data, filenameCharW alnum ch = true)
            ∨ (∃ t, f.data = t ++ [newlineChar] ∧ t ≠ []
                ∧ ∀ ch ∈ t, filenameCharW alnum ch = true))))
      ∧ isInvalidNameError (read_fileW alnum fs f) = !validate_filenameW alnum f
      ∧ isInvalidNameError (write_fileW alnum fs maxFileSize maxSandboxSize f c)
          = !validate_filenameW alnum f
      ∧ isInvalidNameError (delete_fileW alnum fs f) = !validate_filenameW alnum f :=
  ⟨validate_filenameW_iff alnum f, isInvalidNameError_readW alnum fs f,
   isInvalidNameError_writeW alnum fs maxFileSize maxSandboxSize f c,
   isInvalidNameError_deleteW alnum fs f⟩

/-- C8 counterexample, in two parts against the claimed grammar
`[A-Za-z0-9_.-]`.  First, the filename `"a\n"` contains a character
outside that class and is neither `.` nor `..`, yet validation accepts it
and read, write and delete all succeed (Python's `$` matches before a
single trailing newline); the name is pure ASCII, where the Unicode and
ASCII readings of `\w` coincide, so the ASCII instantiation of `alnum`
is exact here.  Second, under any reading of `alnum` that contains the
Unicode alphanumeric `é` — as `str.isalnum` does — the filename
`"é.html"` also contains a character outside the claimed class yet is
accepted, so the class of accepted names is strictly larger than the
claimed ASCII grammar in a second way. -/
theorem c8_counterexample :
    (("a\n".data.all filenameChar = false)
      ∧ "a\n" ≠ "." ∧ "a\n" ≠ ".."
      ∧ validate_filenameW (fun ch => ch.isAlphanum) "a\n" = true
      ∧ write_fileW (fun ch => ch.isAlphanum) [] 1048576 104857600 "a\n" "x"
          = .ok [("a\n", "x")]
      ∧ read_fileW (fun ch => ch.isAlphanum) [("a\n", "x")] "a\n" = .ok "x"
      ∧ delete_fileW (fun ch => ch.isAlphanum) [("a\n", "x")] "a\n" = .ok [])
    ∧ (("é.html".data.all filenameChar = false)
      ∧ (fun ch => ch.isAlphanum || ch == 'é') 'é' = true
      ∧ validate_filenameW (fun ch => ch.isAlphanum || ch == 'é') "é.html" = true
      ∧ read_fileW (fun ch => ch.isAlphanum || ch == 'é') [("é.html", "x")] "é.html"
          = .ok "x") :=
  ⟨⟨by decide, by decide, by decide, by decide, by decide, by decide, by decide⟩,
   ⟨by decide, by decide, by decide, by decide⟩⟩

/-! ## Lemmas about the two todo tools -/

theorem countP_status_partition (todos : List TodoItem)
    (h : ∀ t ∈ todos, t.status = "pending" ∨ t.status = "in_progress"
        ∨ t.status = "completed") :
    todos.countP (fun t => t.status == "completed")
      + todos.countP (fun t => t.status == "in_progress")
      + todos.countP (fun t => t.status == "pending") = todos.length := by
  induction todos with
  | nil => simp
  | cons t rest ih =>
    have hrest := ih (fun x hx => h x (List.mem_cons_of_mem t hx))
    have ht := h t (List.mem_cons_self t rest)
    simp only [List.countP_cons, List.length_cons]
    rcases ht with ht | ht | ht <;> rw [ht] <;> simp <;> omega

/-- C5 (amended): the snapshot semantics the claim describes belongs to
`TodoWriteTool`, whose tool name is `todo_write`: invoked with
`{todos: [...]}` it replaces the session's whole snapshot and returns the
`{total, completed, in_progress, pending}` summary, with the three status
counts partitioning the total.  That tool is absent from the sandbox
registry, whose `todo` entry is the legacy action-based `TodoTool`. -/
theorem c5_amended_todo_write_snapshot (todos : List TodoItem)
    (snapshot : Option (List TodoItem))
    (hvalid : ∀ t ∈ todos, t.status = "pending" ∨ t.status = "in_progress"
        ∨ t.status = "completed") :
    (todo_write_execute todos snapshot).2 = some todos
      ∧ (todo_write_execute todos snapshot).1.todos = todos
      ∧ (todo_write_execute todos snapshot).1.total = todos.length
      ∧ (todo_write_execute todos snapshot).1.completed
          + (todo_write_execute todos snapshot).1.in_progress
          + (todo_write_execute todos snapshot).1.pending = todos.length
      ∧ initTools.lookup "todo" = some RegistryTool.todo
      ∧ initTools.lookup todoWriteToolName = none := by
  refine ⟨rfl, rfl, rfl, ?_, by decide, by decide⟩
  exact countP_status_partition todos hvalid

/-- C5 amended witness: a one-item snapshot write. -/
theorem c5_amended_todo_write_snapshot_witness :
    (∀ t ∈ [(⟨"创建页面", "pending", "正在创建页面"⟩ : TodoItem)],
      t.status = "pending" ∨ t.status = "in_progress" ∨ t.status = "completed")
    ∧ (todo_write_execute [⟨"创建页面", "pending", "正在创建页面"⟩] none).2
      = some [⟨"创建页面", "pending", "正在创建页面"⟩] :=
  ⟨by decide,
   (c5_amended_todo_write_snapshot [⟨"创建页面", "pending", "正在创建页面"⟩]
      none (by decide)).1⟩

/-- C5 counterexample: the tool registered under the name `todo` is the
legacy `TodoTool`, not the snapshot tool: `todo_write` is not a
registered name, and the claimed argument shape `{todos: [...]}` does not
even bind against the registered tool — `TodoTool.execute` accepts only
`action`/`task`, so `execute(**{"todos": ...})` raises a `TypeError`
instead of replacing the snapshot and returning a summary. -/
theorem c5_counterexample :
    initTools.lookup "todo" = some RegistryTool.todo
      ∧ initTools.lookup "todo_write" = none
      ∧ registryNames.contains "todo_write" = false
      ∧ pyKwargsBindable todoToolAcceptedKwargs todoToolRequiredKwargs ["todos"] = false
      ∧ pyKwargsBindable todoWriteAcceptedKwargs todoWriteAcceptedKwargs ["todos"] = true :=
  ⟨by decide, by decide, by decide, by decide, by decide⟩

/-! ## Lemmas about history truncation (C2) -/

theorem roleBeq_system_user : (Role.system == Role.user) = false := rfl

theorem roleBeq_system_assistant : (Role.system == Role.assistant) = false := rfl

theorem roleBeq_system_system : (Role.system == Role.system) = true := rfl

theorem roleBeq_user_user : (Role.user == Role.user) = true := rfl

theorem roleBeq_user_system : (Role.user == Role.system) = false := rfl

theorem roleBeq_user_assistant : (Role.user == Role.assistant) = false := rfl

theorem roleBeq_assistant_system : (Role.assistant == Role.system) = false := rfl

theorem roleBeq_assistant_user : (Role.assistant == Role.user) = false := rfl

theorem roleBeq_assistant_assistant : (Role.assistant == Role.assistant) = true := rfl

theorem roleBeq_tool_system : (Role.tool == Role.system) = false := rfl

theorem roleBeq_tool_user : (Role.tool == Role.user) = false := rfl

theorem roleBeq_tool_assistant : (Role.tool == Role.assistant) = false := rfl

theorem truncGo_sublist (ra : List AiMsg) (ids : List String) :
    ∀ (msgs : List AiMsg) (fk : Bool), List.Sublist (truncGo ra ids msgs fk) msgs := by
  intro msgs
  induction msgs with
  | nil => intro fk; simp [truncGo]
  | cons m rest ih =>
    intro fk
    obtain ⟨r, cnt, tc, rc, tid⟩ := m
    cases r with
    | system =>
      simp only [truncGo]
      exact List.Sublist.cons₂ _ (ih fk)
    | user =>
      cases fk with
      | true =>
        simp only [truncGo, if_true]
        exact List.Sublist.cons _ (ih true)
      | false =>
        simp only [truncGo, if_false, Bool.false_eq_true]
        exact List.Sublist.cons₂ _ (ih true)
    | assistant =>
      by_cases he : ra.elem ⟨Role.assistant, cnt, tc, rc, tid⟩ = true
      · simp only [truncGo, he, if_true]
        exact List.Sublist.cons₂ _ (ih fk)
      · simp only [truncGo, he, if_false, Bool.false_eq_true]
        exact List.Sublist.cons _ (ih fk)
    | tool =>
      by_cases he : keepTool ids ⟨Role.tool, cnt, tc, rc, tid⟩ = true
      · simp only [truncGo, he, if_true]
        exact List.Sublist.cons₂ _ (ih fk)
      · simp only [truncGo, he, if_false, Bool.false_eq_true]
        exact List.Sublist.cons _ (ih fk)

theorem truncGo_filter_system (ra : List AiMsg) (ids : List String) :
    ∀ (msgs : List AiMsg) (fk : Bool),
      (truncGo ra ids msgs fk).filter (fun m => m.role == Role.system)
        = msgs.filter (fun m => m.role == Role.system) := by
  intro msgs
  induction msgs with
  | nil => intro fk; simp [truncGo]
  | cons m rest ih =>
    intro fk
    obtain ⟨r, cnt, tc, rc, tid⟩ := m
    cases r with
    | system =>
      simp only [truncGo, List.filter_cons]
      rw [if_pos (by decide), if_pos (by decide), ih fk]
    | user =>
      cases fk with
      | true =>
        simp only [truncGo, if_true, List.filter_cons]
        rw [if_neg (by decide), ih true]
      | false =>
        simp only [truncGo, if_false, Bool.false_eq_true, List.filter_cons]
        rw [if_neg (by decide), if_neg (by decide), ih true]
    | assistant =>
      by_cases he : ra.elem ⟨Role.assistant, cnt, tc, rc, tid⟩ = true
      · simp only [truncGo, he, if_true, List.filter_cons]
        rw [if_neg (by decide), if_neg (by decide), ih fk]
      · simp only [truncGo, he, if_false, Bool.false_eq_true, List.filter_cons]
        rw [if_neg (by decide), ih fk]
    | tool =>
      by_cases he : keepTool ids ⟨Role.tool, cnt, tc, rc, tid⟩ = true
      · simp only [truncGo, he, if_true, List.filter_cons]
        rw [if_neg (by decide), if_neg (by decide), ih fk]
      · simp only [truncGo, he, if_false, Bool.false_eq_true, List.filter_cons]
        rw [if_neg (by decide), ih fk]

theorem truncGo_filter_user_true (ra : List AiMsg) (ids : List String) :
    ∀ (msgs : List AiMsg),
      (truncGo ra ids msgs true).filter (fun m => m.role == Role.user) = [] := by
  intro msgs
  induction msgs with
  | nil => simp [truncGo]
  | cons m rest ih =>
    obtain ⟨r, cnt, tc, rc, tid⟩ := m
    cases r with
    | system =>
      simp only [truncGo, List.filter_cons]
      rw [if_neg (by decide), ih]
    | user =>
      simp only [truncGo, if_true]
      exact ih
    | assistant =>
      by_cases he : ra.elem ⟨Role.assistant, cnt, tc, rc, tid⟩ = true
      · simp only [truncGo, he, if_true, List.filter_cons]
        rw [if_neg (by decide), ih]
      · simp only [truncGo, he, if_false, Bool.false_eq_true]
        exact ih
    | tool =>
      by_cases he : keepTool ids ⟨Role.tool, cnt, tc, rc, tid⟩ = true
      · simp only [truncGo, he, if_true, List.filter_cons]
        rw [if_neg (by decide), ih]
      · simp only [truncGo, he, if_false, Bool.false_eq_true]
        exact ih

theorem truncGo_filter_user_false (ra : List AiMsg) (ids : List String) :
    ∀ (msgs : List AiMsg),
      (truncGo ra ids msgs false).filter (fun m => m.role == Role.user)
        = (msgs.filter (fun m => m.role == Role.user)).take 1 := by
  intro msgs
  induction msgs with
  | nil => simp [truncGo]
  | cons m rest ih =>
    obtain ⟨r, cnt, tc, rc, tid⟩ := m
    cases r with
    | system =>
      simp only [truncGo, List.filter_cons]
      rw [if_neg (by decide), if_neg (by decide), ih]
    | user =>
      simp only [truncGo, if_false, Bool.false_eq_true, List.filter_cons]
      rw [if_pos (by decide), if_pos (by decide), truncGo_filter_user_true ra ids rest]
      simp
    | assistant =>
      by_cases he : ra.elem ⟨Role.assistant, cnt, tc, rc, tid⟩ = true
      · simp only [truncGo, he, if_true, List.filter_cons]
        rw [if_neg (by decide), if_neg (by decide), ih]
      · simp only [truncGo, he, if_false, Bool.false_eq_true, List.filter_cons]
        rw [if_neg (by decide), ih]
    | tool =>
      by_cases he : keepTool ids ⟨Role.tool, cnt, tc, rc, tid⟩ = true
      · simp only [truncGo, he, if_true, List.filter_cons]
        rw [if_neg (by decide), if_neg (by decide), ih]
      · simp only [truncGo, he, if_false, Bool.false_eq_true, List.filter_cons]
        rw [if_neg (by decide), ih]

theorem truncGo_filter_assistant (ra : List AiMsg) (ids : List String) :
    ∀ (msgs : List AiMsg) (fk : Bool),
      (truncGo ra ids msgs fk).filter (fun m => m.role == Role.assistant)
        = (msgs.filter (fun m => m.role == Role.assistant)).filter
            (fun m => ra.elem m) := by
  intro msgs
  induction msgs with
  | nil => intro fk; simp [truncGo]
  | cons m rest ih =>
    intro fk
    obtain ⟨r, cnt, tc, rc, tid⟩ := m
    cases r with
    | system =>
      simp only [truncGo, List.filter_cons, roleBeq_system_assistant,
        Bool.false_eq_true, if_false]
      exact ih fk
    | user =>
      cases fk with
      | true =>
        simp only [truncGo, if_true, List.filter_cons, roleBeq_user_assistant,
          Bool.false_eq_true, if_false]
        exact ih true
      | false =>
        simp only [truncGo, if_false, Bool.false_eq_true, List.filter_cons,
          roleBeq_user_assistant]
        exact ih true
    | assistant =>
      by_cases he : ra.elem ⟨Role.assistant, cnt, tc, rc, tid⟩ = true
      · simp only [truncGo, he, if_true, List.filter_cons,
          roleBeq_assistant_assistant]
        rw [ih fk]
      · simp only [truncGo, he, if_false, Bool.false_eq_true, List.filter_cons,
          roleBeq_assistant_assistant, if_true]
        exact ih fk
    | tool =>
      by_cases he : keepTool ids ⟨Role.tool, cnt, tc, rc, tid⟩ = true
      · simp only [truncGo, he, if_true, List.filter_cons, roleBeq_tool_assistant,
          Bool.false_eq_true, if_false]
        exact ih fk
      · simp only [truncGo, he, if_false, Bool.false_eq_true, List.filter_cons,
          roleBeq_tool_assistant]
        exact ih fk

theorem truncGo_tool_mem (ra : List AiMsg) (ids : List String) :
    ∀ (msgs : List AiMsg) (fk : Bool) (m : AiMsg), m ∈ msgs → m.role = Role.tool →
      keepTool ids m = true → m ∈ truncGo ra ids msgs fk := by
  intro msgs
  induction msgs with
  | nil => intro fk m hm; simp at hm
  | cons hd rest ih =>
    intro fk m hm hrole hkeep
    rcases List.mem_cons.mp hm with heq | hmem
    · subst heq
      obtain ⟨r, cnt, tc, rc, tid⟩ := m
      cases hrole
      simp only [truncGo, hkeep, if_true]
      exact List.mem_cons_self _ _
    · obtain ⟨r, cnt, tc, rc, tid⟩ := hd
      cases r with
      | system =>
        simp only [truncGo]
        exact List.mem_cons_of_mem _ (ih fk m hmem hrole hkeep)
      | user =>
        cases fk with
        | true =>
          simp only [truncGo, if_true]
          exact ih true m hmem hrole hkeep
        | false =>
          simp only [truncGo, if_false, Bool.false_eq_true]
          exact List.mem_cons_of_mem _ (ih true m hmem hrole hkeep)
      | assistant =>
        by_cases he : ra.elem ⟨Role.assistant, cnt, tc, rc, tid⟩ = true
        · simp only [truncGo, he, if_true]
          exact List.mem_cons_of_mem _ (ih fk m hmem hrole hkeep)
        · simp only [truncGo, he, if_false, Bool.false_eq_true]
          exact ih fk m hmem hrole hkeep
      | tool =>
        by_cases he : keepTool ids ⟨Role.tool, cnt, tc, rc, tid⟩ = true
        · simp only [truncGo, he, if_true]
          exact List.mem_cons_of_mem _ (ih fk m hmem hrole hkeep)
        · simp only [truncGo, he, if_false, Bool.false_eq_true]
          exact ih fk m hmem hrole hkeep

theorem filterMap_convert_filter_system (ctx : String → String)
    (stored : List StoredMsg) :
    (stored.filterMap (convertStored ctx)).filter (fun m => m.role == Role.system)
      = (stored.filter (fun m => m.role == Role.system)).map
          (fun m => ({ role := Role.system, content := m.content } : AiMsg)) := by
  induction stored with
  | nil => simp
  | cons m rest ih =>
    obtain ⟨r, cnt, tc, rc, tid⟩ := m
    cases r with
    | system =>
      simp only [List.filterMap_cons, convertStored, List.filter_cons,
        roleBeq_system_system, if_true, List.map_cons]
      rw [ih]
    | user =>
      simp only [List.filterMap_cons, convertStored, List.filter_cons,
        roleBeq_user_system, Bool.false_eq_true, if_false]
      exact ih
    | assistant =>
      cases tc with
      | none =>
        simp only [List.filterMap_cons, convertStored, List.filter_cons,
          roleBeq_assistant_system, Bool.false_eq_true, if_false]
        exact ih
      | some tcs =>
        simp only [List.filterMap_cons, convertStored, List.filter_cons,
          roleBeq_assistant_system, Bool.false_eq_true, if_false]
        exact ih
    | tool =>
      simp only [List.filterMap_cons, convertStored, List.filter_cons,
        roleBeq_tool_system, Bool.false_eq_true, if_false]
      exact ih

theorem filterMap_convert_filter_user (ctx : String → String)
    (stored : List StoredMsg) :
    (stored.filterMap (convertStored ctx)).filter (fun m => m.role == Role.user)
      = (stored.filter (fun m => m.role == Role.user)).map
          (fun m => ({ role := Role.user, content := ctx m.content } : AiMsg)) := by
  induction stored with
  | nil => simp
  | cons m rest ih =>
    obtain ⟨r, cnt, tc, rc, tid⟩ := m
    cases r with
    | system =>
      simp only [List.filterMap_cons, convertStored, List.filter_cons,
        roleBeq_system_user, Bool.false_eq_true, if_false]
      exact ih
    | user =>
      simp only [List.filterMap_cons, convertStored, List.filter_cons,
        roleBeq_user_user, if_true, List.map_cons]
      rw [ih]
    | assistant =>
      cases tc with
      | none =>
        simp only [List.filterMap_cons, convertStored, List.filter_cons,
          roleBeq_assistant_user, Bool.false_eq_true, if_false]
        exact ih
      | some tcs =>
        simp only [List.filterMap_cons, convertStored, List.filter_cons,
          roleBeq_assistant_user, Bool.false_eq_true, if_false]
        exact ih
    | tool =>
      simp only [List.filterMap_cons, convertStored, List.filter_cons,
        roleBeq_tool_user, Bool.false_eq_true, if_false]
      exact ih

theorem systemPromptMsg_not_mem_converted (ctx : String → String)
    (stored : List StoredMsg)
    (hsys : ∀ m ∈ stored, m.role = Role.system → m.content ≠ systemPromptText) :
    systemPromptMsg ∉ stored.filterMap (convertStored ctx) := by
  intro hmem
  obtain ⟨sm, hsm, hconv⟩ := List.mem_filterMap.mp hmem
  obtain ⟨r, cnt, tc, rc, tid⟩ := sm
  cases r with
  | system =>
    simp only [convertStored, systemPromptMsg, Option.some.injEq, AiMsg.mk.injEq] at hconv
    exact hsys ⟨Role.system, cnt, tc, rc, tid⟩ hsm rfl hconv.2.1
  | user =>
    simp [convertStored, systemPromptMsg, AiMsg.mk.injEq] at hconv
  | assistant =>
    cases tc with
    | none => simp [convertStored] at hconv
    | some tcs => simp [convertStored, systemPromptMsg, AiMsg.mk.injEq] at hconv
  | tool =>
    simp [convertStored, systemPromptMsg, AiMsg.mk.injEq] at hconv

/-- C2 (amended): with truncation enabled and history limit `H ≥ 1`
(default 20), the assembled provider array is the leading system prompt —
present exactly once and first, provided no stored system note textually
equals it — followed by a subsequence of the converted stored messages
(relative order preserved) that keeps every stored system message in
order, keeps exactly the first user message (under its contextual-prompt
rewriting) and drops every other user message, keeps the last
`min(H, A)` assistant messages *among the `A` assistants that carry tool
calls* — assistant messages without tool calls are omitted from the
assembled array altogether by the assembler — and keeps every tool
message whose `tool_call_id` belongs to one of those kept assistants. -/
theorem c2_truncation_preservation (ctx : String → String)
    (stored : List StoredMsg) (maxHistory : Nat) (hH : 1 ≤ maxHistory)
    (hsys : ∀ m ∈ stored, m.role = Role.system → m.content ≠ systemPromptText) :
    prepare_ai_messages ctx stored true maxHistory
        = systemPromptMsg
            :: apply_truncation_strategy (stored.filterMap (convertStored ctx)) maxHistory
      ∧ (prepare_ai_messages ctx stored true maxHistory).count systemPromptMsg = 1
      ∧ (apply_truncation_strategy (stored.filterMap (convertStored ctx))
            maxHistory).filter (fun m => m.role == Role.system)
          = (stored.filter (fun m => m.role == Role.system)).map
              (fun m => ({ role := Role.system, content := m.content } : AiMsg))
      ∧ (apply_truncation_strategy (stored.filterMap (convertStored ctx))
            maxHistory).filter (fun m => m.role == Role.user)
          = ((stored.filter (fun m => m.role == Role.user)).map
              (fun m => ({ role := Role.user, content := ctx m.content } : AiMsg))).take 1
      ∧ recentAssistants (stored.filterMap (convertStored ctx)) maxHistory
          = ((stored.filterMap (convertStored ctx)).filter
                (fun m => m.role == Role.assistant)).drop
              (((stored.filterMap (convertStored ctx)).filter
                  (fun m => m.role == Role.assistant)).length - maxHistory)
      ∧ List.Sublist (recentAssistants (stored.filterMap (convertStored ctx)) maxHistory)
          (apply_truncation_strategy (stored.filterMap (convertStored ctx)) maxHistory)
      ∧ (∀ m ∈ stored.filterMap (convertStored ctx), m.role = Role.tool →
          keepTool (collectToolCallIds
              (recentAssistants (stored.filterMap (convertStored ctx)) maxHistory)) m = true →
          m ∈ apply_truncation_strategy (stored.filterMap (convertStored ctx)) maxHistory)
      ∧ List.Sublist
          (apply_truncation_strategy (stored.filterMap (convertStored ctx)) maxHistory)
          (stored.filterMap (convertStored ctx)) := by
  have hne0 : (maxHistory == 0) = false := by
    cases maxHistory with
    | zero => omega
    | succ n => rfl
  have hra : recentAssistants (stored.filterMap (convertStored ctx)) maxHistory
      = ((stored.filterMap (convertStored ctx)).filter
            (fun m => m.role == Role.assistant)).drop
          (((stored.filterMap (convertStored ctx)).filter
              (fun m => m.role == Role.assistant)).length - maxHistory) := by
    simp only [recentAssistants, hne0, Bool.false_eq_true, if_false]
  refine ⟨rfl, ?_, ?_, ?_, hra, ?_, ?_, ?_⟩
  · have hnotmem : systemPromptMsg ∉
        apply_truncation_strategy (stored.filterMap (convertStored ctx)) maxHistory := by
      intro hmem
      exact systemPromptMsg_not_mem_converted ctx stored hsys
        ((truncGo_sublist _ _ (stored.filterMap (convertStored ctx)) false).subset hmem)
    have hshape : prepare_ai_messages ctx stored true maxHistory
        = systemPromptMsg
            :: apply_truncation_strategy (stored.filterMap (convertStored ctx)) maxHistory := rfl
    rw [hshape, List.count_cons]
    rw [List.count_eq_zero.mpr hnotmem]
    simp
  · rw [apply_truncation_strategy, truncGo_filter_system,
      filterMap_convert_filter_system]
  · rw [apply_truncation_strategy, truncGo_filter_user_false,
      filterMap_convert_filter_user]
  · rw [hra, apply_truncation_strategy]
    have hfa := truncGo_filter_assistant
      (recentAssistants (stored.filterMap (convertStored ctx)) maxHistory)
      (collectToolCallIds (recentAssistants (stored.filterMap (convertStored ctx)) maxHistory))
      (stored.filterMap (convertStored ctx)) false
    have hsplit : (stored.filterMap (convertStored ctx)).filter
          (fun m => m.role == Role.assistant)
        = ((stored.filterMap (convertStored ctx)).filter
              (fun m => m.role == Role.assistant)).take
            (((stored.filterMap (convertStored ctx)).filter
                (fun m => m.role == Role.assistant)).length - maxHistory)
          ++ ((stored.filterMap (convertStored ctx)).filter
              (fun m => m.role == Role.assistant)).drop
            (((stored.filterMap (convertStored ctx)).filter
                (fun m => m.role == Role.assistant)).length - maxHistory) :=
      (List.take_append_drop _ _).symm
    have hkeep : (((stored.filterMap (convertStored ctx)).filter
          (fun m => m.role == Role.assistant)).drop
            (((stored.filterMap (convertStored ctx)).filter
                (fun m => m.role == Role.assistant)).length - maxHistory)).filter
          (fun m => (recentAssistants (stored.filterMap (convertStored ctx))
              maxHistory).elem m)
        = ((stored.filterMap (convertStored ctx)).filter
            (fun m => m.role == Role.assistant)).drop
          (((stored.filterMap (convertStored ctx)).filter
              (fun m => m.role == Role.assistant)).length - maxHistory) := by
      refine List.filter_eq_self.mpr ?_
      intro x hx
      rw [hra]
      exact List.elem_eq_true_of_mem hx
    have hchain : List.Sublist
        (((stored.filterMap (convertStored ctx)).filter
            (fun m => m.role == Role.assistant)).drop
          (((stored.filterMap (convertStored ctx)).filter
              (fun m => m.role == Role.assistant)).length - maxHistory))
        (((stored.filterMap (convertStored ctx)).filter
            (fun m => m.role == Role.assistant)).filter
          (fun m => (recentAssistants (stored.filterMap (convertStored ctx))
              maxHistory).elem m)) := by
      conv_rhs => rw [hsplit]
      rw [List.filter_append, hkeep]
      exact List.sublist_append_right _ _
    have hfs : List.Sublist
        (((stored.filterMap (convertStored ctx)).filter
            (fun m => m.role == Role.assistant)).filter
          (fun m => (recentAssistants (stored.filterMap (convertStored ctx))
              maxHistory).elem m))
        (truncGo (recentAssistants (stored.filterMap (convertStored ctx)) maxHistory)
          (collectToolCallIds (recentAssistants (stored.filterMap (convertStored ctx))
            maxHistory))
          (stored.filterMap (convertStored ctx)) false) := by
      rw [← hfa]
      exact List.filter_sublist _
    exact hchain.trans hfs
  · intro m hm hrole hkeep
    rw [apply_truncation_strategy]
    exact truncGo_tool_mem _ _ _ false m hm hrole hkeep
  · exact truncGo_sublist _ _ _ false

/-- C2 witness: a four-message history (system note, user, assistant with
one tool call, linked tool result) with `H = 20`. -/
theorem c2_truncation_preservation_witness :
    (1 ≤ 20
      ∧ (∀ m ∈ [(⟨Role.system, "创建了 index.html", none, none, none⟩ : StoredMsg),
            ⟨Role.user, "做一个 Todo List", none, none, none⟩,
            ⟨Role.assistant, "", some [⟨"call_1", "write", "\x7b\x7d"⟩], some "", none⟩,
            ⟨Role.tool, "ok", none, none, some "call_1"⟩],
          m.role = Role.system → m.content ≠ systemPromptText))
    ∧ (prepare_ai_messages (fun s => s)
        [⟨Role.system, "创建了 index.html", none, none, none⟩,
         ⟨Role.user, "做一个 Todo List", none, none, none⟩,
         ⟨Role.assistant, "", some [⟨"call_1", "write", "\x7b\x7d"⟩], some "", none⟩,
         ⟨Role.tool, "ok", none, none, some "call_1"⟩] true 20).count systemPromptMsg = 1 :=
  ⟨⟨by omega, by decide⟩,
   (c2_truncation_preservation (fun s => s)
      [⟨Role.system, "创建了 index.html", none, none, none⟩,
       ⟨Role.user, "做一个 Todo List", none, none, none⟩,
       ⟨Role.assistant, "", some [⟨"call_1", "write", "\x7b\x7d"⟩], some "", none⟩,
       ⟨Role.tool, "ok", none, none, some "call_1"⟩] 20 (by omega) (by decide)).2.1⟩

/-- C2 counterexample: a stored history consisting of one text-only
assistant message.  The claim requires the assembled array to contain the
last `min(20, 1) = 1` assistant messages, but the assembler drops
assistant messages without tool calls entirely, so the output contains no
assistant message at all. -/
theorem c2_counterexample :
    ((prepare_ai_messages (fun s => s)
        [⟨Role.assistant, "好的，已经完成。", none, none, none⟩] true 20).filter
      (fun m => m.role == Role.assistant)) = []
      ∧ ([(⟨Role.assistant, "好的，已经完成。", none, none, none⟩ : StoredMsg)].filter
          (fun m => m.role == Role.assistant)).length = 1
      ∧ min 20 1 = 1 := by
  refine ⟨by decide, by decide, by decide⟩

/-! ## Lemmas about the trace discipline (C3) -/

theorem TraceBlocked.append {a b : List DbAction}
    (ha : TraceBlocked a) (hb : TraceBlocked b) : TraceBlocked (a ++ b) := by
  induction ha with
  | nil => exact hb
  | step k rest _ ih => exact TraceBlocked.step k _ ih
  | upd k rest _ ih => exact TraceBlocked.upd k _ ih
  | other n rest _ ih => exact TraceBlocked.other n _ ih

theorem traceBlocked_save (st : LoopState) (s : RawStep)
    (h : TraceBlocked st.trace) : TraceBlocked (save_execution_step st s).trace :=
  h.append (TraceBlocked.step _ _ TraceBlocked.nil)

theorem traceBlocked_processDeltas (k : Nat) (ds : List String) :
    ∀ (acc : String) (st : LoopState), TraceBlocked st.trace →
      TraceBlocked (processDeltas k acc ds st).1.trace := by
  induction ds with
  | nil => intro acc st h; exact h
  | cons d rest ih =>
    intro acc st h
    exact ih (acc ++ d) _ (h.append (TraceBlocked.upd _ _ TraceBlocked.nil))

theorem traceBlocked_processCall (i : Nat) (st : LoopState)
    (c : ToolCallReq × ToolOutcome) (h : TraceBlocked st.trace) :
    TraceBlocked (processCall i st c).trace := by
  rw [processCall]
  cases hx : executeToolModel c.1.name c.2 with
  | ok res ht =>
    by_cases hn : (c.1.name == "todo_write" && ht) = true
    · simp only [hn, if_true]
      exact ((traceBlocked_save _ _ (traceBlocked_save _ _
        (traceBlocked_save _ _ h))).append (TraceBlocked.other _ _ TraceBlocked.nil))
    · simp only [hn, Bool.false_eq_true, if_false]
      exact traceBlocked_save _ _ (traceBlocked_save _ _ (traceBlocked_save _ _ h))
  | exn m =>
    exact traceBlocked_save _ _ (traceBlocked_save _ _ (traceBlocked_save _ _ h))

theorem traceBlocked_processCalls (i : Nat) :
    ∀ (calls : List (ToolCallReq × ToolOutcome)) (st : LoopState),
      TraceBlocked st.trace → TraceBlocked (processCalls i calls st).trace := by
  intro calls
  induction calls with
  | nil => intro st h; exact h
  | cons c rest ih =>
    intro st h
    exact ih _ (traceBlocked_processCall i st c h)

theorem traceBlocked_runIteration (i : Nat) (sc : IterScript) (st : LoopState)
    (h : TraceBlocked st.trace) : TraceBlocked (runIteration i sc st).1.trace := by
  rw [runIteration]
  cases sc.finish with
  | raiseErr m =>
    exact traceBlocked_processDeltas _ _ _ _ (traceBlocked_save _ _ h)
  | textDone c =>
    exact traceBlocked_save _ _
      (traceBlocked_processDeltas _ _ _ _ (traceBlocked_save _ _ h))
  | withTools calls c =>
    exact traceBlocked_processCalls _ _ _ (traceBlocked_save _ _ (traceBlocked_save _ _
      (traceBlocked_processDeltas _ _ _ _ (traceBlocked_save _ _ h))))

theorem traceBlocked_loopGo :
    ∀ (fuel i : Nat) (scripts : List IterScript) (st : LoopState),
      TraceBlocked st.trace → TraceBlocked (loopGo fuel i scripts st).1.trace := by
  intro fuel
  induction fuel with
  | zero =>
    intro i scripts st h
    exact traceBlocked_save _ _ h
  | succ fuel ih =>
    intro i scripts st h
    rw [loopGo]
    rcases hp : runIteration i (scripts.headD { deltas := [], finish := Finish.textDone "" }) st
      with ⟨st2, oc⟩
    have h2 : TraceBlocked st2.trace := by
      have := traceBlocked_runIteration i
        (scripts.headD { deltas := [], finish := Finish.textDone "" }) st h
      rw [hp] at this
      exact this
    cases oc with
    | raised m => exact h2
    | brk => exact traceBlocked_save _ _ h2
    | cont => exact ih _ _ _ h2

theorem traceBlocked_run_agent_turn (scripts : List IterScript) :
    TraceBlocked (run_agent_turn scripts).trace := by
  rw [run_agent_turn]
  rcases hp : loopGo maxAgentIterations 1 scripts {} with ⟨st, r⟩
  have h : TraceBlocked st.trace := by
    have := traceBlocked_loopGo maxAgentIterations 1 scripts {} TraceBlocked.nil
    rw [hp] at this
    exact this
  cases r with
  | none => exact h.append (TraceBlocked.other _ _ TraceBlocked.nil)
  | some m => exact h.append (TraceBlocked.other _ _ TraceBlocked.nil)

theorem traceBlocked_persist_eq_emit {t : List DbAction} (h : TraceBlocked t) :
    persistSeq t = emitStepSeq t := by
  induction h with
  | nil => rfl
  | step k rest _ ih =>
    simp only [persistSeq, emitStepSeq, List.filterMap_cons] at ih ⊢
    rw [ih]
  | upd k rest _ ih =>
    simp only [persistSeq, emitStepSeq, List.filterMap_cons] at ih ⊢
    rw [ih]
  | other n rest _ ih =>
    simp only [persistSeq, emitStepSeq, List.filterMap_cons] at ih ⊢
    rw [ih]

theorem traceBlocked_emitStep_persisted {t : List DbAction} (h : TraceBlocked t) :
    ∀ (p k : Nat), t[p]? = some (DbAction.emitStep k) →
      ∃ q, q < p ∧ t[q]? = some (DbAction.persistCreate k) := by
  induction h with
  | nil => intro p k hp; simp at hp
  | step k0 rest _ ih =>
    intro p k hp
    match p with
    | 0 => simp at hp
    | 1 =>
      simp only [List.getElem?_cons_succ, List.getElem?_cons_zero,
        Option.some.injEq] at hp
      cases hp
      exact ⟨0, by omega, by simp⟩
    | p + 2 =>
      simp only [List.getElem?_cons_succ] at hp
      obtain ⟨q, hq, hget⟩ := ih p k hp
      exact ⟨q + 2, by omega, by simpa using hget⟩
  | upd k0 rest _ ih =>
    intro p k hp
    match p with
    | 0 => simp at hp
    | 1 => simp at hp
    | p + 2 =>
      simp only [List.getElem?_cons_succ] at hp
      obtain ⟨q, hq, hget⟩ := ih p k hp
      exact ⟨q + 2, by omega, by simpa using hget⟩
  | other n rest _ ih =>
    intro p k hp
    match p with
    | 0 => simp at hp
    | p + 1 =>
      simp only [List.getElem?_cons_succ] at hp
      obtain ⟨q, hq, hget⟩ := ih p k hp
      exact ⟨q + 1, by omega, by simpa using hget⟩

theorem traceBlocked_emitDelta_persisted {t : List DbAction} (h : TraceBlocked t) :
    ∀ (p k : Nat), t[p]? = some (DbAction.emitDelta k) →
      ∃ q, q < p ∧ t[q]? = some (DbAction.persistUpdate k) := by
  induction h with
  | nil => intro p k hp; simp at hp
  | step k0 rest _ ih =>
    intro p k hp
    match p with
    | 0 => simp at hp
    | 1 => simp at hp
    | p + 2 =>
      simp only [List.getElem?_cons_succ] at hp
      obtain ⟨q, hq, hget⟩ := ih p k hp
      exact ⟨q + 2, by omega, by simpa using hget⟩
  | upd k0 rest _ ih =>
    intro p k hp
    match p with
    | 0 => simp at hp
    | 1 =>
      simp only [List.getElem?_cons_succ, List.getElem?_cons_zero,
        Option.some.injEq] at hp
      cases hp
      exact ⟨0, by omega, by simp⟩
    | p + 2 =>
      simp only [List.getElem?_cons_succ] at hp
      obtain ⟨q, hq, hget⟩ := ih p k hp
      exact ⟨q + 2, by omega, by simpa using hget⟩
  | other n rest _ ih =>
    intro p k hp
    match p with
    | 0 => simp at hp
    | p + 1 =>
      simp only [List.getElem?_cons_succ] at hp
      obtain ⟨q, hq, hget⟩ := ih p k hp
      exact ⟨q + 1, by omega, by simpa using hget⟩

/-- C3: every execution-step transition of a turn commits its row before
its event is enqueued — the trace is a sequence of persist-then-emit
blocks, so every step event (and every in-place `thinking_delta` update
event) is preceded by the corresponding commit — and step rows are
created in exactly the order their events are emitted. -/
theorem c3_persist_before_emit (scripts : List IterScript) :
    TraceBlocked (run_agent_turn scripts).trace
      ∧ persistSeq (run_agent_turn scripts).trace
          = emitStepSeq (run_agent_turn scripts).trace
      ∧ (∀ (p k : Nat), (run_agent_turn scripts).trace[p]?
            = some (DbAction.emitStep k) →
          ∃ q, q < p ∧ (run_agent_turn scripts).trace[q]?
            = some (DbAction.persistCreate k))
      ∧ (∀ (p k : Nat), (run_agent_turn scripts).trace[p]?
            = some (DbAction.emitDelta k) →
          ∃ q, q < p ∧ (run_agent_turn scripts).trace[q]?
            = some (DbAction.persistUpdate k)) :=
  ⟨traceBlocked_run_agent_turn scripts,
   traceBlocked_persist_eq_emit (traceBlocked_run_agent_turn scripts),
   traceBlocked_emitStep_persisted (traceBlocked_run_agent_turn scripts),
   traceBlocked_emitDelta_persisted (traceBlocked_run_agent_turn scripts)⟩

/-- C3 witness: in the one-iteration text-only turn, the event of the
first step row (trace position 1) is preceded by its commit at
position 0. -/
theorem c3_persist_before_emit_witness :
    ((run_agent_turn [{ deltas := [], finish := Finish.textDone "好的" }]).trace[1]?
        = some (DbAction.emitStep 0))
      ∧ (∃ q, q < 1
          ∧ (run_agent_turn [{ deltas := [], finish := Finish.textDone "好的" }]).trace[q]?
            = some (DbAction.persistCreate 0)) :=
  ⟨by decide,
   (c3_persist_before_emit [{ deltas := [], finish := Finish.textDone "好的" }]).2.2.1
     1 0 (by decide)⟩

/-! ## Step-store growth and the terminal row (C1, C9) -/

theorem save_steps (st : LoopState) (s : RawStep) :
    (save_execution_step st s).steps = st.steps ++ [s] := rfl

theorem set_append_ge {α : Type} (a : List α) :
    ∀ (b : List α) (k : Nat) (x : α), a.length ≤ k →
      (a ++ b).set k x = a ++ b.set (k - a.length) x := by
  intro b k x h
  exact List.set_append_right k x h

theorem updReasoning_append (a b : List RawStep) (k : Nat) (r : String)
    (h : a.length ≤ k) :
    updReasoning (a ++ b) k r = a ++ updReasoning b (k - a.length) r := by
  rw [updReasoning, updReasoning, List.getElem?_append_right h]
  cases b[k - a.length]? with
  | none => rfl
  | some old => exact set_append_ge a b k _ h

theorem processDeltas_steps_extend (k : Nat) (ds : List String) :
    ∀ (acc : String) (st : LoopState) (base : List RawStep), base.length ≤ k →
      (∃ r0, st.steps = base ++ r0) →
      ∃ r1, (processDeltas k acc ds st).1.steps = base ++ r1 := by
  induction ds with
  | nil => intro acc st base _ h; exact h
  | cons d rest ih =>
    intro acc st base hk ⟨r0, hr0⟩
    refine ih (acc ++ d) _ base hk ⟨updReasoning r0 (k - base.length) (acc ++ d), ?_⟩
    show updReasoning st.steps k (acc ++ d) = _
    rw [hr0, updReasoning_append base r0 k _ hk]

theorem exists_append_trans {α : Type} {s1 s2 s3 : List α}
    (h1 : ∃ t, s2 = s1 ++ t) (h2 : ∃ t, s3 = s2 ++ t) : ∃ t, s3 = s1 ++ t := by
  obtain ⟨t1, ht1⟩ := h1
  obtain ⟨t2, ht2⟩ := h2
  exact ⟨t1 ++ t2, by rw [ht2, ht1, List.append_assoc]⟩

theorem processCall_steps_extend (i : Nat) (st : LoopState)
    (c : ToolCallReq × ToolOutcome) :
    ∃ t, (processCall i st c).steps = st.steps ++ t := by
  rw [processCall]
  cases hx : executeToolModel c.1.name c.2 with
  | ok res ht =>
    by_cases hn : (c.1.name == "todo_write" && ht) = true
    · simp only [hn, if_true]
      exact exists_append_trans (exists_append_trans ⟨_, save_steps st _⟩
        ⟨_, save_steps _ _⟩) ⟨_, save_steps _ _⟩
    · simp only [hn, Bool.false_eq_true, if_false]
      exact exists_append_trans (exists_append_trans ⟨_, save_steps st _⟩
        ⟨_, save_steps _ _⟩) ⟨_, save_steps _ _⟩
  | exn m =>
    exact exists_append_trans (exists_append_trans ⟨_, save_steps st _⟩
      ⟨_, save_steps _ _⟩) ⟨_, save_steps _ _⟩

theorem processCalls_steps_extend (i : Nat) :
    ∀ (calls : List (ToolCallReq × ToolOutcome)) (st : LoopState),
      ∃ t, (processCalls i calls st).steps = st.steps ++ t := by
  intro calls
  induction calls with
  | nil => intro st; exact ⟨[], by simp [processCalls]⟩
  | cons c rest ih =>
    intro st
    obtain ⟨t1, ht1⟩ := processCall_steps_extend i st c
    obtain ⟨t2, ht2⟩ := ih (processCall i st c)
    exact ⟨t1 ++ t2, by rw [processCalls, ht2, ht1, List.append_assoc]⟩

theorem runIteration_steps_extend (i : Nat) (sc : IterScript) (st : LoopState) :
    ∃ t, (runIteration i sc st).1.steps = st.steps ++ t := by
  rw [runIteration]
  have hpd := processDeltas_steps_extend st.steps.length sc.deltas ""
    (save_execution_step st
      { iteration := i, status := ExecutionStatus.thinking,
        progress := some (min (10 + i * 5) 80) })
    st.steps (Nat.le_refl _) ⟨_, save_steps st _⟩
  obtain ⟨r1, hr1⟩ := hpd
  cases sc.finish with
  | raiseErr m => exact ⟨r1, hr1⟩
  | textDone c => exact ⟨_, by rw [save_steps, hr1, List.append_assoc]⟩
  | withTools calls c =>
    refine exists_append_trans ?_ (processCalls_steps_extend i calls _)
    refine exists_append_trans ?_ ⟨_, save_steps _ _⟩
    refine exists_append_trans ?_ ⟨_, save_steps _ _⟩
    exact ⟨r1, hr1⟩

theorem loopGo_steps_extend :
    ∀ (fuel i : Nat) (scripts : List IterScript) (st : LoopState),
      ∃ t, (loopGo fuel i scripts st).1.steps = st.steps ++ t := by
  intro fuel
  induction fuel with
  | zero =>
    intro i scripts st
    exact ⟨_, save_steps st _⟩
  | succ fuel ih =>
    intro i scripts st
    rw [loopGo]
    rcases hp : runIteration i (scripts.headD { deltas := [], finish := Finish.textDone "" }) st
      with ⟨st2, oc⟩
    have h2 : ∃ t, st2.steps = st.steps ++ t := by
      have := runIteration_steps_extend i
        (scripts.headD { deltas := [], finish := Finish.textDone "" }) st
      rw [hp] at this
      exact this
    obtain ⟨t1, ht1⟩ := h2
    cases oc with
    | raised m => exact ⟨t1, ht1⟩
    | brk => exact exists_append_trans ⟨t1, ht1⟩ ⟨_, save_steps st2 _⟩
    | cont => exact exists_append_trans ⟨t1, ht1⟩ (ih (i + 1) scripts.tail st2)

theorem scriptRaiseFree_tail (scripts : List IterScript)
    (h : scriptRaiseFree scripts = true) : scriptRaiseFree scripts.tail = true := by
  cases scripts with
  | nil => exact h
  | cons a t =>
    rw [scriptRaiseFree] at h ⊢
    rw [List.all_cons, Bool.and_eq_true] at h
    exact h.2

theorem scriptRaiseFree_headD (scripts : List IterScript)
    (h : scriptRaiseFree scripts = true) :
    (scripts.headD { deltas := [], finish := Finish.textDone "" }).finish.isRaise
      = false := by
  cases scripts with
  | nil => rfl
  | cons a t =>
    rw [scriptRaiseFree, List.all_cons, Bool.and_eq_true] at h
    have h1 := h.1
    show a.finish.isRaise = false
    cases hf : a.finish.isRaise
    · rfl
    · rw [hf] at h1; simp at h1

theorem runIteration_raised {i : Nat} {sc : IterScript} {st st2 : LoopState}
    {m : String} (hp : runIteration i sc st = (st2, IterOutcome.raised m)) :
    sc.finish.isRaise = true := by
  rw [runIteration] at hp
  cases hfin : sc.finish with
  | withTools calls c =>
    rw [hfin] at hp
    have h2 := congrArg Prod.snd hp
    by_cases hc : calls.isEmpty = true
    · simp [hc] at h2
    · simp [hc] at h2
  | textDone c =>
    rw [hfin] at hp
    have h2 := congrArg Prod.snd hp
    simp at h2
  | raiseErr m2 => rfl

theorem loopGo_last_completed :
    ∀ (fuel i : Nat) (scripts : List IterScript) (st : LoopState),
      scriptRaiseFree scripts = true →
      ∃ s, (loopGo fuel i scripts st).1.steps.getLast? = some s
        ∧ s.status = ExecutionStatus.completed ∧ s.progress = some 100 := by
  intro fuel
  induction fuel with
  | zero =>
    intro i scripts st _
    exact ⟨_, List.getLast?_concat _, rfl, rfl⟩
  | succ fuel ih =>
    intro i scripts st hfree
    rw [loopGo]
    rcases hp : runIteration i (scripts.headD { deltas := [], finish := Finish.textDone "" }) st
      with ⟨st2, oc⟩
    cases oc with
    | raised m =>
      exfalso
      have hnr := scriptRaiseFree_headD scripts hfree
      rw [runIteration_raised hp] at hnr
      exact absurd hnr (by decide)
    | brk =>
      exact ⟨_, List.getLast?_concat _, rfl, rfl⟩
    | cont => exact ih (i + 1) scripts.tail st2 (scriptRaiseFree_tail scripts hfree)

theorem run_agent_turn_steps (scripts : List IterScript) :
    (run_agent_turn scripts).steps = (loopGo maxAgentIterations 1 scripts {}).1.steps := by
  rw [run_agent_turn]
  rcases hp : loopGo maxAgentIterations 1 scripts {} with ⟨st, r⟩
  cases r <;> rfl

theorem enumFrom_fst_pairwise {α : Type} :
    ∀ (l : List α) (n : Nat), (List.enumFrom n l).Pairwise (fun a b => a.1 < b.1) := by
  intro l
  induction l with
  | nil => intro n; simp
  | cons a rest ih =>
    intro n
    rw [List.enumFrom]
    refine List.Pairwise.cons ?_ (ih (n + 1))
    intro x hx
    have := List.le_fst_of_mem_enumFrom hx
    simp only
    omega

theorem numberSteps_pairwise (l : List RawStep) :
    (numberSteps l).Pairwise (fun a b => a.id < b.id ∧ a.created_at ≤ b.created_at) := by
  rw [numberSteps, List.pairwise_map]
  refine (enumFrom_fst_pairwise l 0).imp ?_
  intro a b h
  exact ⟨h, Nat.le_of_lt h⟩

/-- C1 (amended): the step rows of a turn carry strictly increasing ids
and non-decreasing timestamps in creation order, so ordering by
`created_at` agrees with ordering by id; for a turn whose agent loop runs
to completion without an uncaught exception, the last step row has status
`completed` and progress `100`.  (A turn that ends through the
uncaught-failure path appends no terminal row — see the counterexample —
so the claim's terminal-status guarantee holds only for non-raising
turns.) -/
theorem c1_step_ordering_and_terminal (scripts : List IterScript) :
    ((turnSteps scripts).Pairwise
        (fun a b => a.id < b.id ∧ a.created_at ≤ b.created_at))
      ∧ (scriptRaiseFree scripts = true →
          ∃ s, (run_agent_turn scripts).steps.getLast? = some s
            ∧ s.status = ExecutionStatus.completed ∧ s.progress = some 100) := by
  constructor
  · exact numberSteps_pairwise _
  · intro hfree
    rw [run_agent_turn_steps]
    exact loopGo_last_completed maxAgentIterations 1 scripts {} hfree

/-- C1 witness: a raise-free one-iteration turn. -/
theorem c1_step_ordering_and_terminal_witness :
    scriptRaiseFree [{ deltas := [], finish := Finish.textDone "好的" }] = true
      ∧ (∃ s, (run_agent_turn
            [{ deltas := [], finish := Finish.textDone "好的" }]).steps.getLast? = some s
          ∧ s.status = ExecutionStatus.completed ∧ s.progress = some 100) :=
  ⟨by decide,
   (c1_step_ordering_and_terminal
      [{ deltas := [], finish := Finish.textDone "好的" }]).2 (by decide)⟩

/-- C1 counterexample: a turn whose provider stream raises during the
first iteration ends through the uncaught-failure path of `run_agent`:
an `error` event is enqueued and the assistant message finalized, but no
step row is appended, so the last (and only) step of the message stays in
the non-terminal `thinking` status. -/
theorem c1_counterexample :
    ((run_agent_turn [{ deltas := [], finish := Finish.raiseErr "db error" }]).steps.map
        (fun s => s.status) = [ExecutionStatus.thinking])
      ∧ ((run_agent_turn
            [{ deltas := [], finish := Finish.raiseErr "db error" }]).steps.getLast?.map
          (fun s => s.status == ExecutionStatus.completed
            || s.status == ExecutionStatus.failed) = some false)
      ∧ ((run_agent_turn
            [{ deltas := [], finish := Finish.raiseErr "db error" }]).events.getLast?
          = some { name := "error" }) := by
  refine ⟨by decide, by decide, by decide⟩

/-! ## The iteration bound (C4) -/

theorem iterLe_save {B : Nat} {st : LoopState} {s : RawStep}
    (h : ∀ x ∈ st.steps, x.iteration ≤ B) (hs : s.iteration ≤ B) :
    ∀ x ∈ (save_execution_step st s).steps, x.iteration ≤ B := by
  intro x hx
  rw [save_steps] at hx
  rcases List.mem_append.mp hx with hx | hx
  · exact h x hx
  · rw [List.mem_singleton.mp hx]; exact hs

theorem iterLe_updReasoning {B : Nat} {l : List RawStep} {k : Nat} {r : String}
    (h : ∀ x ∈ l, x.iteration ≤ B) :
    ∀ x ∈ updReasoning l k r, x.iteration ≤ B := by
  intro x hx
  rw [updReasoning] at hx
  cases hl : l[k]? with
  | none => rw [hl] at hx; exact h x hx
  | some old =>
    rw [hl] at hx
    rcases List.mem_or_eq_of_mem_set hx with hx | hx
    · exact h x hx
    · rw [hx]
      exact h old (List.getElem?_mem hl)

theorem iterLe_processDeltas {B k : Nat} (ds : List String) :
    ∀ (acc : String) (st : LoopState), (∀ x ∈ st.steps, x.iteration ≤ B) →
      ∀ x ∈ (processDeltas k acc ds st).1.steps, x.iteration ≤ B := by
  induction ds with
  | nil => intro acc st h; exact h
  | cons d rest ih =>
    intro acc st h
    exact ih (acc ++ d) _ (iterLe_updReasoning h)

theorem iterLe_processCall {B i : Nat} {st : LoopState}
    {c : ToolCallReq × ToolOutcome} (hi : i ≤ B)
    (h : ∀ x ∈ st.steps, x.iteration ≤ B) :
    ∀ x ∈ (processCall i st c).steps, x.iteration ≤ B := by
  rw [processCall]
  cases hx : executeToolModel c.1.name c.2 with
  | ok res ht =>
    by_cases hn : (c.1.name == "todo_write" && ht) = true
    · simp only [hn, if_true]
      exact iterLe_save (iterLe_save (iterLe_save h hi) hi) hi
    · simp only [hn, Bool.false_eq_true, if_false]
      exact iterLe_save (iterLe_save (iterLe_save h hi) hi) hi
  | exn m =>
    exact iterLe_save (iterLe_save (iterLe_save h hi) hi) hi

theorem iterLe_processCalls {B i : Nat} (hi : i ≤ B) :
    ∀ (calls : List (ToolCallReq × ToolOutcome)) (st : LoopState),
      (∀ x ∈ st.steps, x.iteration ≤ B) →
      ∀ x ∈ (processCalls i calls st).steps, x.iteration ≤ B := by
  intro calls
  induction calls with
  | nil => intro st h; exact h
  | cons c rest ih =>
    intro st h
    exact ih _ (iterLe_processCall hi h)

theorem iterLe_runIteration {B i : Nat} {sc : IterScript} {st : LoopState}
    (hi : i ≤ B) (h : ∀ x ∈ st.steps, x.iteration ≤ B) :
    ∀ x ∈ (runIteration i sc st).1.steps, x.iteration ≤ B := by
  rw [runIteration]
  cases sc.finish with
  | raiseErr m => exact iterLe_processDeltas _ _ _ (iterLe_save h hi)
  | textDone c =>
    exact iterLe_save (iterLe_processDeltas _ _ _ (iterLe_save h hi)) hi
  | withTools calls c =>
    exact iterLe_processCalls hi _ _
      (iterLe_save (iterLe_save (iterLe_processDeltas _ _ _ (iterLe_save h hi)) hi) hi)

theorem iterLe_loopGo {B : Nat} :
    ∀ (fuel i : Nat) (scripts : List IterScript) (st : LoopState),
      (∀ x ∈ st.steps, x.iteration ≤ B) → i + fuel ≤ B + 1 →
      ∀ x ∈ (loopGo fuel i scripts st).1.steps, x.iteration ≤ B := by
  intro fuel
  induction fuel with
  | zero =>
    intro i scripts st h hle
    exact iterLe_save h (show i - 1 ≤ B by omega)
  | succ fuel ih =>
    intro i scripts st h hle
    rw [loopGo]
    rcases hp : runIteration i (scripts.headD { deltas := [], finish := Finish.textDone "" }) st
      with ⟨st2, oc⟩
    have h2 : ∀ x ∈ st2.steps, x.iteration ≤ B := by
      have := @iterLe_runIteration B i
        (scripts.headD { deltas := [], finish := Finish.textDone "" }) st
        (show i ≤ B by omega) h
      rw [hp] at this
      exact this
    cases oc with
    | raised m => exact h2
    | brk => exact iterLe_save h2 (show i ≤ B by omega)
    | cont => exact ih (i + 1) scripts.tail st2 h2 (by omega)

/-- C4 (amended): `_MAX_AGENT_ITERATIONS` is 500, not 100: the agent loop
performs at most 500 iterations per user turn, and the iteration recorded
on any execution step of any turn is at most 500. -/
theorem c4_iteration_bound (scripts : List IterScript) (s : RawStep)
    (hs : s ∈ (run_agent_turn scripts).steps) :
    s.iteration ≤ maxAgentIterations ∧ maxAgentIterations = 500 := by
  refine ⟨?_, rfl⟩
  rw [run_agent_turn_steps] at hs
  exact iterLe_loopGo maxAgentIterations 1 scripts {} (by intro x hx; simp at hx)
    (by rw [maxAgentIterations]) s hs

/-- C4 witness: the terminal step of the empty-provider turn. -/
theorem c4_iteration_bound_witness :
    (({ iteration := 1, status := ExecutionStatus.completed,
        progress := some 100 } : RawStep) ∈ (run_agent_turn []).steps)
      ∧ ({ iteration := 1, status := ExecutionStatus.completed,
            progress := some 100 } : RawStep).iteration ≤ maxAgentIterations
      ∧ maxAgentIterations = 500 :=
  ⟨by decide, c4_iteration_bound [] _ (by decide)⟩

/-- C4 counterexample: a turn whose provider requests one (failing) tool
call for 101 consecutive iterations records a step with iteration 101,
contradicting the claimed bound of 100. -/
theorem c4_counterexample :
    ((run_agent_turn (List.replicate 101
        { deltas := [],
          finish := Finish.withTools
            [({ id := "c", name := "t", arguments := "\x7b\x7d" },
              ToolOutcome.exn "x")] "" })).steps.any
      (fun s => s.iteration == 101)) = true := by
  decide

/-! ## No `todos_update` event is ever emitted (C6) -/

theorem statusEventName_ne_todos (st : ExecutionStatus) :
    (statusEventName st != "todos_update") = true := by
  cases st <;> rfl

theorem noTodos_save {st : LoopState} {s : RawStep}
    (h : st.events.all (fun e => e.name != "todos_update") = true) :
    (save_execution_step st s).events.all (fun e => e.name != "todos_update")
      = true := by
  show (st.events ++ [_]).all _ = true
  rw [List.all_append, h, Bool.true_and, List.all_cons]
  rw [statusEventName_ne_todos]
  rfl

theorem noTodos_processDeltas {k : Nat} (ds : List String) :
    ∀ (acc : String) (st : LoopState),
      st.events.all (fun e => e.name != "todos_update") = true →
      (processDeltas k acc ds st).1.events.all (fun e => e.name != "todos_update")
        = true := by
  induction ds with
  | nil => intro acc st h; exact h
  | cons d rest ih =>
    intro acc st h
    refine ih (acc ++ d) _ ?_
    show (st.events ++ [_]).all _ = true
    rw [List.all_append, h, Bool.true_and, List.all_cons]
    rfl

theorem noTodos_processCall {i : Nat} {st : LoopState}
    {c : ToolCallReq × ToolOutcome}
    (h : st.events.all (fun e => e.name != "todos_update") = true) :
    (processCall i st c).events.all (fun e => e.name != "todos_update") = true := by
  rw [processCall]
  cases hx : executeToolModel c.1.name c.2 with
  | ok res ht =>
    by_cases hn : (c.1.name == "todo_write") = true
    · exfalso
      have hcn : c.1.name = "todo_write" := eq_of_beq hn
      rw [hcn] at hx
      rw [executeToolModel] at hx
      rw [show (registryNames.contains "todo_write") = false from rfl] at hx
      simp at hx
    · have hb : (c.1.name == "todo_write") = false := by
        cases hbe : (c.1.name == "todo_write")
        · rfl
        · exact absurd hbe hn
      have hcond : (c.1.name == "todo_write" && ht) = false := by
        rw [hb, Bool.false_and]
      simp only [hcond, Bool.false_eq_true, if_false]
      exact noTodos_save (noTodos_save (noTodos_save h))
  | exn m =>
    exact noTodos_save (noTodos_save (noTodos_save h))

theorem noTodos_processCalls {i : Nat} :
    ∀ (calls : List (ToolCallReq × ToolOutcome)) (st : LoopState),
      st.events.all (fun e => e.name != "todos_update") = true →
      (processCalls i calls st).events.all (fun e => e.name != "todos_update")
        = true := by
  intro calls
  induction calls with
  | nil => intro st h; exact h
  | cons c rest ih =>
    intro st h
    exact ih _ (noTodos_processCall h)

theorem noTodos_runIteration {i : Nat} {sc : IterScript} {st : LoopState}
    (h : st.events.all (fun e => e.name != "todos_update") = true) :
    (runIteration i sc st).1.events.all (fun e => e.name != "todos_update")
      = true := by
  rw [runIteration]
  cases sc.finish with
  | raiseErr m => exact noTodos_processDeltas _ _ _ (noTodos_save h)
  | textDone c =>
    exact noTodos_save (noTodos_processDeltas _ _ _ (noTodos_save h))
  | withTools calls c =>
    exact noTodos_processCalls _ _
      (noTodos_save (noTodos_save (noTodos_processDeltas _ _ _ (noTodos_save h))))

theorem noTodos_loopGo :
    ∀ (fuel i : Nat) (scripts : List IterScript) (st : LoopState),
      st.events.all (fun e => e.name != "todos_update") = true →
      (loopGo fuel i scripts st).1.events.all (fun e => e.name != "todos_update")
        = true := by
  intro fuel
  induction fuel with
  | zero => intro i scripts st h; exact noTodos_save h
  | succ fuel ih =>
    intro i scripts st h
    rw [loopGo]
    rcases hp : runIteration i (scripts.headD { deltas := [], finish := Finish.textDone "" }) st
      with ⟨st2, oc⟩
    have h2 : st2.events.all (fun e => e.name != "todos_update") = true := by
      have := @noTodos_runIteration i
        (scripts.headD { deltas := [], finish := Finish.textDone "" }) st h
      rw [hp] at this
      exact this
    cases oc with
    | raised m => exact h2
    | brk => exact noTodos_save h2
    | cont => exact ih (i + 1) scripts.tail st2 h2

/-- C6 (amended): the loop emits `todos_update` only after a successful
dispatch of a tool named `todo_write` whose result JSON contains `todos`;
since `todo_write` is not a registered tool name, its dispatch always
raises, and therefore no turn ever emits a `todos_update` event — in
particular a successful dispatch of the registered `todo` tool emits
none. -/
theorem c6_no_todos_update_event (scripts : List IterScript) :
    (run_agent_turn scripts).events.all (fun e => e.name != "todos_update")
      = true := by
  rw [run_agent_turn]
  rcases hp : loopGo maxAgentIterations 1 scripts {} with ⟨st, r⟩
  have h : st.events.all (fun e => e.name != "todos_update") = true := by
    have := noTodos_loopGo maxAgentIterations 1 scripts {} rfl
    rw [hp] at this
    exact this
  cases r with
  | none =>
    show (st.events ++ [_]).all _ = true
    rw [List.all_append, h, Bool.true_and, List.all_cons]
    rfl
  | some m =>
    show (st.events ++ [_]).all _ = true
    rw [List.all_append, h, Bool.true_and, List.all_cons]
    rfl

/-- C6 counterexample: a turn in which the registered `todo` tool is
dispatched successfully (a `tool_completed` step with tool name `todo`
exists) yet no `todos_update` event appears among the turn's events —
the emission guard tests for the name `todo_write`, which is never
registered. -/
theorem c6_counterexample :
    ((run_agent_turn [⟨[], Finish.withTools
        [(⟨"call_1", "todo", "\x7b\"action\": \"list\"\x7d"⟩,
          ToolOutcome.ok "当前没有任务。" false)] ""⟩]).steps.any
      (fun s => s.status == ExecutionStatus.tool_completed
        && s.tool_name == some "todo") = true)
      ∧ ((run_agent_turn [⟨[], Finish.withTools
          [(⟨"call_1", "todo", "\x7b\"action\": \"list\"\x7d"⟩,
            ToolOutcome.ok "当前没有任务。" false)] ""⟩]).events.all
        (fun e => e.name != "todos_update") = true) := by
  refine ⟨by decide, by decide⟩

/-! ## Reasoning-delta accumulation (C7) -/

theorem updReasoning_twice (l : List RawStep) (k : Nat) (a b : String) :
    updReasoning (updReasoning l k a) k b = updReasoning l k b := by
  cases hl : l[k]? with
  | none =>
    have h1 : updReasoning l k a = l := by rw [updReasoning, hl]
    rw [h1]
  | some old =>
    have hk : k < l.length := (List.getElem?_eq_some_iff.mp hl).1
    have h1 : updReasoning l k a
        = l.set k { old with reasoning_content := some a } := by
      rw [updReasoning, hl]
    have h2 : (l.set k { old with reasoning_content := some a })[k]?
        = some { old with reasoning_content := some a } :=
      List.getElem?_set_self hk
    rw [h1]
    simp only [updReasoning, h2, hl, List.set_set]

theorem deltaSnapshots_length :
    ∀ (ds : List String) (acc : String), (deltaSnapshots acc ds).length = ds.length := by
  intro ds
  induction ds with
  | nil => intro acc; rfl
  | cons d rest ih =>
    intro acc
    rw [deltaSnapshots, List.length_cons, ih, List.length_cons]

theorem processDeltas_spec (k : Nat) :
    ∀ (ds : List String) (acc : String) (st : LoopState),
      processDeltas k acc ds st
        = ({ steps := if ds.isEmpty then st.steps
               else updReasoning st.steps k (acc ++ strJoin ds),
             events := st.events ++ (deltaSnapshots acc ds).map
               (fun a => { name := "thinking_delta", stepIdx := some k,
                           reasoning_snapshot := some a }),
             trace := st.trace ++
               (List.replicate ds.length
                 [DbAction.persistUpdate k, DbAction.emitDelta k]).flatten },
           acc ++ strJoin ds) := by
  intro ds
  induction ds with
  | nil =>
    intro acc st
    simp [processDeltas, strJoin, deltaSnapshots, String.append_empty]
  | cons d rest ih =>
    intro acc st
    rw [processDeltas, ih]
    have hjoin : (acc ++ d) ++ strJoin rest = acc ++ strJoin (d :: rest) := by
      rw [strJoin, ← String.append_assoc]
    by_cases hre : rest.isEmpty = true
    · have hrnil : rest = [] := List.isEmpty_iff.mp hre
      subst hrnil
      simp only [List.isEmpty_nil, if_true, List.isEmpty_cons, Bool.false_eq_true,
        if_false, Prod.mk.injEq, LoopState.mk.injEq]
      refine ⟨⟨?_, ?_, ?_⟩, ?_⟩
      · show updReasoning st.steps k (acc ++ d) = _
        rw [← hjoin, show strJoin ([] : List String) = "" from rfl, String.append_empty]
      · rw [deltaSnapshots, deltaSnapshots, List.append_assoc]
        rfl
      · simp [List.replicate_succ, List.append_assoc]
      · rw [← hjoin]
    · have hrne : rest.isEmpty = false := by
        cases hb : rest.isEmpty
        · rfl
        · exact absurd hb hre
      simp only [hrne, List.isEmpty_cons, Bool.false_eq_true, if_false,
        Prod.mk.injEq, LoopState.mk.injEq]
      refine ⟨⟨?_, ?_, ?_⟩, ?_⟩
      · show updReasoning (updReasoning st.steps k (acc ++ d)) k _ = _
        rw [updReasoning_twice, hjoin]
      · rw [deltaSnapshots, List.append_assoc]
        rfl
      · simp [List.replicate_succ, List.append_assoc]
      · rw [hjoin]

theorem statusBeq_thinking_thinking :
    (ExecutionStatus.thinking == ExecutionStatus.thinking) = true := rfl

theorem statusBeq_completed_thinking :
    (ExecutionStatus.completed == ExecutionStatus.thinking) = false := rfl

theorem nameBeq_thinking_delta : ("thinking" == "thinking_delta") = false := rfl

theorem nameBeq_delta_delta : ("thinking_delta" == "thinking_delta") = true := rfl

theorem nameBeq_completed_delta : ("completed" == "thinking_delta") = false := rfl

theorem nameBeq_done_delta : ("done" == "thinking_delta") = false := rfl

/-- Full characterization of a one-iteration turn whose stream finishes
with text and no tool calls: the initial thinking row (updated in place
to the full accumulated reasoning), the unconditional post-stream
thinking row, the terminal completed row, and the events with one
`thinking_delta` per chunk carrying the accumulated text so far. -/
theorem run_textDone_spec (ds : List String) (c : String) (hne : ds.isEmpty = false) :
    (run_agent_turn [⟨ds, Finish.textDone c⟩]).steps
      = [ { iteration := 1, status := ExecutionStatus.thinking,
            reasoning_content := some (strJoin ds),
            progress := some (min (10 + 1 * 5) 80) },
          { iteration := 1, status := ExecutionStatus.thinking,
            reasoning_content := some (strJoin ds),
            progress := some (min (15 + 1 * 5) 85) },
          { iteration := 1, status := ExecutionStatus.completed,
            progress := some 100 } ]
    ∧ (run_agent_turn [⟨ds, Finish.textDone c⟩]).events
      = { name := "thinking", stepIdx := some 0, reasoning_snapshot := none }
        :: ((deltaSnapshots "" ds).map
             (fun a => { name := "thinking_delta", stepIdx := some 0,
                         reasoning_snapshot := some a })
            ++ [ { name := "thinking", stepIdx := some 1,
                   reasoning_snapshot := some (strJoin ds) },
                 { name := "completed", stepIdx := some 2,
                   reasoning_snapshot := none },
                 { name := "done" } ]) := by
  have hsteps : (run_agent_turn [⟨ds, Finish.textDone c⟩]).steps
      = (((processDeltas 0 "" ds (save_execution_step {} { iteration := 1, status := ExecutionStatus.thinking, progress := some (min (10 + 1 * 5) 80) })).1.steps ++ [{ iteration := 1, status := ExecutionStatus.thinking, reasoning_content := some (processDeltas 0 "" ds (save_execution_step {} { iteration := 1, status := ExecutionStatus.thinking, progress := some (min (10 + 1 * 5) 80) })).2, progress := some (min (15 + 1 * 5) 85) }]) ++ [{ iteration := 1, status := ExecutionStatus.completed, progress := some 100 }]) := rfl
  have hevents : (run_agent_turn [⟨ds, Finish.textDone c⟩]).events
      = ((((processDeltas 0 "" ds (save_execution_step {} { iteration := 1, status := ExecutionStatus.thinking, progress := some (min (10 + 1 * 5) 80) })).1.events
          ++ [{ name := "thinking", stepIdx := some (processDeltas 0 "" ds (save_execution_step {} { iteration := 1, status := ExecutionStatus.thinking, progress := some (min (10 + 1 * 5) 80) })).1.steps.length,
                reasoning_snapshot := some (processDeltas 0 "" ds (save_execution_step {} { iteration := 1, status := ExecutionStatus.thinking, progress := some (min (10 + 1 * 5) 80) })).2 }])
          ++ [{ name := "completed",
                stepIdx := some ((processDeltas 0 "" ds (save_execution_step {} { iteration := 1, status := ExecutionStatus.thinking, progress := some (min (10 + 1 * 5) 80) })).1.steps ++ [({ iteration := 1, status := ExecutionStatus.thinking, reasoning_content := some (processDeltas 0 "" ds (save_execution_step {} { iteration := 1, status := ExecutionStatus.thinking, progress := some (min (10 + 1 * 5) 80) })).2, progress := some (min (15 + 1 * 5) 85) } : RawStep)]).length,
                reasoning_snapshot := none }])
          ++ [{ name := "done" }]) := rfl
  have hpd := processDeltas_spec 0 ds ""
    (save_execution_step {} { iteration := 1, status := ExecutionStatus.thinking, progress := some (min (10 + 1 * 5) 80) })
  rw [hne] at hpd
  simp only [Bool.false_eq_true, if_false] at hpd
  have hs1 : (save_execution_step ({} : LoopState) { iteration := 1, status := ExecutionStatus.thinking, progress := some (min (10 + 1 * 5) 80) }).steps = [{ iteration := 1, status := ExecutionStatus.thinking, progress := some (min (10 + 1 * 5) 80) }] := rfl
  have hs1e : (save_execution_step ({} : LoopState) { iteration := 1, status := ExecutionStatus.thinking, progress := some (min (10 + 1 * 5) 80) }).events
      = [{ name := "thinking", stepIdx := some 0, reasoning_snapshot := none }] := rfl
  rw [hs1, hs1e] at hpd
  have hupd : updReasoning [{ iteration := 1, status := ExecutionStatus.thinking, progress := some (min (10 + 1 * 5) 80) }] 0 ("" ++ strJoin ds)
      = [{ iteration := 1, status := ExecutionStatus.thinking,
           reasoning_content := some ("" ++ strJoin ds),
           progress := some (min (10 + 1 * 5) 80) }] := rfl
  rw [hupd] at hpd
  simp only [String.empty_append] at hpd
  constructor
  · rw [hsteps, hpd]
    rfl
  · rw [hevents, hpd]
    simp [List.append_assoc]

/-- C7: for an iteration whose stream yields several reasoning chunks and
finalizes with no tool calls, the run writes TWO thinking rows for the
iteration — the streamed row updated in place and the unconditional
post-stream summary row — not one; both carry the concatenation of the
chunks in order, and one `thinking_delta` event per chunk is emitted,
each carrying the accumulated text so far. -/
theorem c7_reasoning_accumulation (ds : List String) (c : String) (hds : ds ≠ []) :
    ((run_agent_turn [⟨ds, Finish.textDone c⟩]).steps.filter
        (fun s => s.status == ExecutionStatus.thinking)).map
      (fun s => s.reasoning_content) = [some (strJoin ds), some (strJoin ds)]
    ∧ ((run_agent_turn [⟨ds, Finish.textDone c⟩]).events.filter
        (fun e => e.name == "thinking_delta")).map
      (fun e => e.reasoning_snapshot) = (deltaSnapshots "" ds).map some := by
  have hne : ds.isEmpty = false := by
    cases ds with
    | nil => exact absurd rfl hds
    | cons a t => rfl
  obtain ⟨hs, he⟩ := run_textDone_spec ds c hne
  constructor
  · rw [hs]
    simp only [List.filter_cons, statusBeq_thinking_thinking,
      statusBeq_completed_thinking, Bool.false_eq_true, if_false, if_true,
      List.filter_nil, List.map_cons, List.map_nil]
  · rw [he]
    simp only [List.filter_cons, List.filter_append, List.filter_map,
      Function.comp_def, nameBeq_thinking_delta, nameBeq_delta_delta,
      nameBeq_completed_delta, nameBeq_done_delta, Bool.false_eq_true,
      if_false, if_true, List.filter_nil, List.append_nil, List.nil_append,
      List.map_map, List.map_nil, List.filter_true]

/-- Concrete instantiation of `c7_reasoning_accumulation`. -/
theorem c7_reasoning_accumulation_witness :
    (["Hi", " there"] : List String) ≠ []
    ∧ (((run_agent_turn [⟨["Hi", " there"], Finish.textDone "done"⟩]).steps.filter
          (fun s => s.status == ExecutionStatus.thinking)).map
        (fun s => s.reasoning_content)
          = [some (strJoin ["Hi", " there"]), some (strJoin ["Hi", " there"])]
      ∧ ((run_agent_turn [⟨["Hi", " there"], Finish.textDone "done"⟩]).events.filter
          (fun e => e.name == "thinking_delta")).map
        (fun e => e.reasoning_snapshot) = (deltaSnapshots "" ["Hi", " there"]).map some) :=
  ⟨by decide, c7_reasoning_accumulation ["Hi", " there"] "done" (by decide)⟩

/-- C7 counterexample: with five chunks "A".."E" and a no-tool-calls
finalization, the turn holds two thinking rows, not exactly one; the
accumulation and per-chunk delta parts of the claim do hold. -/
theorem c7_counterexample :
    ((run_agent_turn [⟨["A", "B", "C", "D", "E"], Finish.textDone "ok"⟩]).steps.filter
        (fun s => s.status == ExecutionStatus.thinking)).length = 2
    ∧ ¬ ((run_agent_turn [⟨["A", "B", "C", "D", "E"], Finish.textDone "ok"⟩]).steps.filter
        (fun s => s.status == ExecutionStatus.thinking)).length = 1
    ∧ ((run_agent_turn [⟨["A", "B", "C", "D", "E"], Finish.textDone "ok"⟩]).steps.filter
        (fun s => s.status == ExecutionStatus.thinking)).map (fun s => s.reasoning_content)
      = [some "ABCDE", some "ABCDE"]
    ∧ ((run_agent_turn [⟨["A", "B", "C", "D", "E"], Finish.textDone "ok"⟩]).events.filter
        (fun e => e.name == "thinking_delta")).map (fun e => e.reasoning_snapshot)
      = [some "A", some "AB", some "ABC", some "ABCD", some "ABCDE"] := by
  decide

/-- C9: when a `write` tool call fails filename validation, `WriteTool.execute`
catches the error and returns the message as an ordinary result string, so the
loop records a `tool_completed` step (not a `failed` one) whose `tool_result`
mentions the invalid filename; the loop continues into a second iteration and
the run completes with a final `completed` step and no uncaught exception. -/
theorem c9_write_validation_failure (f content c args cid : String)
    (fs : SandboxFS) (mF mS : Nat) (hf : validate_filename f = false) :
    ((run_agent_turn [⟨[], Finish.withTools [(⟨cid, "write", args⟩, writeToolOutcome fs mF mS f content)] ""⟩, ⟨[], Finish.textDone c⟩]).steps.filter
        (fun s => s.status == ExecutionStatus.failed)) = []
    ∧ ((run_agent_turn [⟨[], Finish.withTools [(⟨cid, "write", args⟩, writeToolOutcome fs mF mS f content)] ""⟩, ⟨[], Finish.textDone c⟩]).steps.filter
        (fun s => s.status == ExecutionStatus.tool_completed)).map
      (fun s => s.tool_result)
      = [some (("错误：Invalid filename: " ++ f).take 1000)]
    ∧ (run_agent_turn [⟨[], Finish.withTools [(⟨cid, "write", args⟩, writeToolOutcome fs mF mS f content)] ""⟩, ⟨[], Finish.textDone c⟩]).steps.map (fun s => s.iteration)
      = [1, 1, 1, 1, 1, 1, 2, 2, 2]
    ∧ (run_agent_turn [⟨[], Finish.withTools [(⟨cid, "write", args⟩, writeToolOutcome fs mF mS f content)] ""⟩, ⟨[], Finish.textDone c⟩]).steps.getLast?
      = some { iteration := 2, status := ExecutionStatus.completed,
               progress := some 100 }
    ∧ (run_agent_turn [⟨[], Finish.withTools [(⟨cid, "write", args⟩, writeToolOutcome fs mF mS f content)] ""⟩, ⟨[], Finish.textDone c⟩]).raisedMsg = none := by
  have hres : write_tool_execute fs mF mS f content
      = "错误：" ++ ("Invalid filename: " ++ f) := by
    rw [write_tool_execute, write_file, hf]
    rfl
  have hc3 : "错误：".length = 3 := by decide
  have hlen : ((("错误：" ++ ("Invalid filename: " ++ f)).length) == 0) = false := by
    rw [strLength_append, hc3]
    exact beq_eq_false_iff_ne.mpr (by omega)
  have hsa : "错误：" ++ ("Invalid filename: " ++ f) = "错误：Invalid filename: " ++ f := by
    rw [← String.append_assoc]
    rfl
  have hr6 : (if (write_tool_execute fs mF mS f content).length == 0 then none else some ((write_tool_execute fs mF mS f content).take 1000))
      = some (("错误：Invalid filename: " ++ f).take 1000) := by
    rw [hres, hlen]
    simp only [Bool.false_eq_true, if_false]
    rw [hsa]
  have hturn : run_agent_turn [⟨[], Finish.withTools [(⟨cid, "write", args⟩, writeToolOutcome fs mF mS f content)] ""⟩, ⟨[], Finish.textDone c⟩]
      = { steps := [
            { iteration := 1, status := ExecutionStatus.thinking,
              progress := some 15 },
            { iteration := 1, status := ExecutionStatus.tool_calling,
              reasoning_content := some "", progress := some 28 },
            { iteration := 1, status := ExecutionStatus.thinking,
              reasoning_content := some "", progress := some 20 },
            { iteration := 1, status := ExecutionStatus.tool_calling,
              tool_name := some "write", tool_arguments := some args,
              tool_call_id := some cid, progress := some 28 },
            { iteration := 1, status := ExecutionStatus.tool_executing,
              tool_name := some "write", tool_arguments := some args,
              tool_call_id := some cid, progress := some 33 },
            { iteration := 1, status := ExecutionStatus.tool_completed,
              tool_name := some "write", tool_arguments := some args,
              tool_call_id := some cid,
              tool_result := (if (write_tool_execute fs mF mS f content).length == 0 then none else some ((write_tool_execute fs mF mS f content).take 1000)),
              progress := some 38 },
            { iteration := 2, status := ExecutionStatus.thinking,
              progress := some 20 },
            { iteration := 2, status := ExecutionStatus.thinking,
              reasoning_content := some "", progress := some 25 },
            { iteration := 2, status := ExecutionStatus.completed,
              progress := some 100 } ],
          events := [
            { name := "thinking", stepIdx := some 0, reasoning_snapshot := none },
            { name := "tool_calling", stepIdx := some 1, reasoning_snapshot := some "" },
            { name := "thinking", stepIdx := some 2, reasoning_snapshot := some "" },
            { name := "tool_calling", stepIdx := some 3, reasoning_snapshot := none },
            { name := "tool_executing", stepIdx := some 4, reasoning_snapshot := none },
            { name := "tool_completed", stepIdx := some 5, reasoning_snapshot := none },
            { name := "thinking", stepIdx := some 6, reasoning_snapshot := none },
            { name := "thinking", stepIdx := some 7, reasoning_snapshot := some "" },
            { name := "completed", stepIdx := some 8, reasoning_snapshot := none },
            { name := "done" } ],
          trace := [
            DbAction.persistCreate 0, DbAction.emitStep 0,
            DbAction.persistCreate 1, DbAction.emitStep 1,
            DbAction.persistCreate 2, DbAction.emitStep 2,
            DbAction.persistCreate 3, DbAction.emitStep 3,
            DbAction.persistCreate 4, DbAction.emitStep 4,
            DbAction.persistCreate 5, DbAction.emitStep 5,
            DbAction.persistCreate 6, DbAction.emitStep 6,
            DbAction.persistCreate 7, DbAction.emitStep 7,
            DbAction.persistCreate 8, DbAction.emitStep 8,
            DbAction.emitOther "done" ],
          raisedMsg := none } := rfl
  refine ⟨?_, ?_, ?_, ?_, ?_⟩
  · rw [hturn]
    rfl
  · rw [hturn, hr6]
    rfl
  · rw [hturn]
    rfl
  · rw [hturn]
    rfl
  · rw [hturn]

/-- Concrete instantiation of `c9_write_validation_failure`. -/
theorem c9_write_validation_failure_witness :
    validate_filename "../x" = false
    ∧ (((run_agent_turn [⟨[], Finish.withTools [(⟨"call_1", "write", "writeargs"⟩, writeToolOutcome [] 1048576 104857600 "../x" "hello")] ""⟩, ⟨[], Finish.textDone "bye"⟩]).steps.filter
          (fun s => s.status == ExecutionStatus.failed)) = []
      ∧ ((run_agent_turn [⟨[], Finish.withTools [(⟨"call_1", "write", "writeargs"⟩, writeToolOutcome [] 1048576 104857600 "../x" "hello")] ""⟩, ⟨[], Finish.textDone "bye"⟩]).steps.filter
          (fun s => s.status == ExecutionStatus.tool_completed)).map
        (fun s => s.tool_result)
        = [some (("错误：Invalid filename: " ++ "../x").take 1000)]
      ∧ (run_agent_turn [⟨[], Finish.withTools [(⟨"call_1", "write", "writeargs"⟩, writeToolOutcome [] 1048576 104857600 "../x" "hello")] ""⟩, ⟨[], Finish.textDone "bye"⟩]).steps.map (fun s => s.iteration)
        = [1, 1, 1, 1, 1, 1, 2, 2, 2]
      ∧ (run_agent_turn [⟨[], Finish.withTools [(⟨"call_1", "write", "writeargs"⟩, writeToolOutcome [] 1048576 104857600 "../x" "hello")] ""⟩, ⟨[], Finish.textDone "bye"⟩]).steps.getLast?
        = some { iteration := 2, status := ExecutionStatus.completed,
                 progress := some 100 }
      ∧ (run_agent_turn [⟨[], Finish.withTools [(⟨"call_1", "write", "writeargs"⟩, writeToolOutcome [] 1048576 104857600 "../x" "hello")] ""⟩, ⟨[], Finish.textDone "bye"⟩]).raisedMsg = none) :=
  ⟨by decide,
   c9_write_validation_failure "../x" "hello" "bye" "writeargs" "call_1"
     [] 1048576 104857600 (by decide)⟩

/-- C9 counterexample: for the invalid filename "../x" the run records no
failed step at all and no step carries a tool_error — the write dispatch
instead yields exactly one tool_completed step with a result string — so
the claimed failed step with a tool_error does not exist. -/
theorem c9_counterexample :
    ((run_agent_turn [⟨[], Finish.withTools [(⟨"call_1", "write", "writeargs"⟩, writeToolOutcome [] 1048576 104857600 "../x" "hello")] ""⟩, ⟨[], Finish.textDone "bye"⟩]).steps.filter
        (fun s => s.status == ExecutionStatus.failed)) = []
    ∧ (run_agent_turn [⟨[], Finish.withTools [(⟨"call_1", "write", "writeargs"⟩, writeToolOutcome [] 1048576 104857600 "../x" "hello")] ""⟩, ⟨[], Finish.textDone "bye"⟩]).steps.all (fun s => s.tool_error == none) = true
    ∧ ((run_agent_turn [⟨[], Finish.withTools [(⟨"call_1", "write", "writeargs"⟩, writeToolOutcome [] 1048576 104857600 "../x" "hello")] ""⟩, ⟨[], Finish.textDone "bye"⟩]).steps.filter
        (fun s => s.status == ExecutionStatus.tool_completed)).map
      (fun s => s.tool_result.isSome)
      = [true]
    ∧ (run_agent_turn [⟨[], Finish.withTools [(⟨"call_1", "write", "writeargs"⟩, writeToolOutcome [] 1048576 104857600 "../x" "hello")] ""⟩, ⟨[], Finish.textDone "bye"⟩]).steps.getLast?
      = some { iteration := 2, status := ExecutionStatus.completed,
               progress := some 100 } := by
  decide

end Mgx
